import Mathlib

/-!
Verification of the rtree repository (Guttman and Hilbert R-tree variants)
against its natural-language specification.

The definitions below are shallow embeddings of the C++ sources:
  - src/src/rtree_hilbert/hilbert_curve.cpp (class HilbertCurve),
    together with box.h (class Box) and ranges.h (Range, Ranges);
  - src/unnamed/part_005, a second revision of hilbert_curve.cpp present
    in the repository, which differs in HilbertCurve::index;
  - src/src/rtree/rtree.h (namespace Gutman: Rectangle, Node, RTree);
  - src/src/rtree_hilbert/hilbert_rtree.h (namespace hilbert: Rectangle,
    Node, RTree).

The definitions also cover:
  - src/unnamed/part_001, a revision holding class RTreeGutman, for its
    constructor check.

Unsigned machine words of the curve code only ever hold small
non-negative values on the inputs considered here and are modelled as
Nat; the bit operations (&, |, ^, <<, >>) are the corresponding Nat
operations.  Signed 64 bit values (long long coordinates and hilbert
values of the tree code) are modelled as Int; INT64_MIN appears
explicitly where the code uses it as a sentinel.  The pointer graph of
the hilbert R-tree is modelled as an arena: node ids stand for node
pointers in allocation order (matching the address order std::set uses
to break comparator ties), and dereferencing a dead or unknown id, like
any other undefined behaviour of the C++, is an explicit error value.
Fallible code returns Except; functions that C++ lets throw are modelled
with an explicit error type.
-/

namespace HilbertCurveCpp

/-- One conditional-exchange step shared by the transpose loops of
hilbert_curve.cpp: with p = q - 1, either x[0] ^= p (when x[i] & q) or the
low p bits of x[0] and x[i] are swapped. -/
def curveStep (q : Nat) (x : List Nat) (i : Nat) : List Nat :=
  let p := q - 1
  if x.getD i 0 &&& q ≠ 0 then
    x.set 0 (x.getD 0 0 ^^^ p)
  else
    let t := (x.getD 0 0 ^^^ x.getD i 0) &&& p
    (x.set 0 (x.getD 0 0 ^^^ t)).set i (x.getD i 0 ^^^ t)

/-- The sequence of q values 2, 4, ..., 2^(bits-1) used by the loop
for (q = 2; q != N; q <<= 1) with N = 2 << (bits - 1). -/
def qSeq (bits : Nat) : List Nat := (List.range (bits - 1)).map (fun k => 2 ^ (k + 1))

/-- HilbertCurve::transposed_index_to_point(bits, x): identical in
hilbert_curve.cpp and part_005.  First the descending loop
x[i] ^= x[i-1] (i = n-1..1) and x[0] ^= t with t = x[n-1] >> 1 read
before the loop, then the ascending q loop applying curveStep with
i = n-1..0. -/
def transposedIndexToPoint (bits : Nat) (x0 : List Nat) : List Nat :=
  let n := x0.length
  let t := x0.getD (n - 1) 0 >>> 1
  let x1 := ((List.range (n - 1)).reverse).foldl
    (fun y i => y.set (i + 1) (y.getD (i + 1) 0 ^^^ y.getD i 0)) x0
  let x2 := x1.set 0 (x1.getD 0 0 ^^^ t)
  (qSeq bits).foldl
    (fun y q => ((List.range n).reverse).foldl (fun z i => curveStep q z i) y)
    x2

/-- HilbertCurve::transpose(index): unpack bit idx of the index into bit
(idx / dim) % bits of coordinate (len - idx - 1) % dim.  The C++ loop
runs idx over all 64 bit positions of a long long; an index in the valid
domain [0, 2^len) has no bits at or above len = bits * dim, so the loop
is equivalent to running idx over [0, len). -/
def transpose (bits dim : Nat) (index : Nat) : List Nat :=
  let len := bits * dim
  (List.range len).foldl
    (fun x idx =>
      if index >>> idx &&& 1 = 1 then
        let d := (len - idx - 1) % dim
        let s := (idx / dim) % bits
        x.set d (x.getD d 0 ||| (1 <<< s))
      else x)
    (List.replicate dim 0)

/-- HilbertCurve::to_index(x): pack the transposed form into an index,
writing bit (bits - 1 - i) of x[j] to bit len - 1 - (i * n + j) of the
result (the running bidx of the source, which starts at len - 1 and is
decremented once per inner iteration). -/
def toIndex (bits len : Nat) (x : List Nat) : Nat :=
  let n := x.length
  (List.range bits).foldl
    (fun b i =>
      (List.range n).foldl
        (fun b j =>
          if x.getD j 0 >>> (bits - 1 - i) &&& 1 = 1 then
            b ||| (1 <<< (len - 1 - (i * n + j)))
          else b)
        b)
    0

/-- HilbertCurve::index of src/src/rtree_hilbert/hilbert_curve.cpp:
copies the point and applies transposed_index_to_point to it, then
to_index. -/
def index (bits dim : Nat) (p : List Nat) : Nat :=
  toIndex bits (bits * dim) (transposedIndexToPoint bits p)

/-- HilbertCurve::point: transpose then transposed_index_to_point,
identical in both revisions of the file. -/
def point (bits dim : Nat) (i : Nat) : List Nat :=
  transposedIndexToPoint bits (transpose bits dim i)

/-- HilbertCurve::max_ordinate = (1 << bits) - 1. -/
def maxOrdinate (bits : Nat) : Nat := 2 ^ bits - 1

/-- HilbertCurve::max_index = (1 << (bits * dim)) - 1. -/
def maxIndex (bits dim : Nat) : Nat := 2 ^ (bits * dim) - 1

end HilbertCurveCpp

namespace HilbertCurveV2

/-- HilbertCurve::transposed_index(bits, point) as written in
src/unnamed/part_005 (the revision whose loop initializes q = M with
M = 1 << (bits - 1)): the descending q loop applying the exchange step
with i = 0..n-1, then the ascending gray-code loop x[i] ^= x[i-1]
(reading the already updated x[i-1]), then the final xor of every
coordinate with t accumulated from the high bits of x[n-1]. -/
def transposedIndex (bits : Nat) (x0 : List Nat) : List Nat :=
  let n := x0.length
  let x1 := ((HilbertCurveCpp.qSeq bits).reverse).foldl
    (fun y q => (List.range n).foldl (fun z i => HilbertCurveCpp.curveStep q z i) y) x0
  let x2 := (List.range (n - 1)).foldl
    (fun y i => y.set (i + 1) (y.getD (i + 1) 0 ^^^ y.getD i 0)) x1
  let t := ((HilbertCurveCpp.qSeq bits).reverse).foldl
    (fun t q => if x2.getD (n - 1) 0 &&& q ≠ 0 then t ^^^ (q - 1) else t) 0
  x2.map (fun v => v ^^^ t)

/-- HilbertCurve::index as written in src/unnamed/part_005: applies
transposed_index (not transposed_index_to_point) before to_index. -/
def index (bits dim : Nat) (p : List Nat) : Nat :=
  HilbertCurveCpp.toIndex bits (bits * dim) (transposedIndex bits p)

end HilbertCurveV2

namespace HilbertCurveCpp

/-- Box::contains of box.h: no coordinate below lo or above hi. -/
def boxContains (lo hi p : List Nat) : Bool :=
  List.all (List.range lo.length) (fun i => !(p.getD i 0 < lo.getD i 0 || p.getD i 0 > hi.getD i 0))

/-- The perimeter test of Box::visit_perimiter: some coordinate equals
the corresponding lo or hi bound. -/
def isPerimeter (lo hi p : List Nat) : Bool :=
  List.any (List.range lo.length) (fun i => p.getD i 0 = lo.getD i 0 || p.getD i 0 = hi.getD i 0)

/-- All cells of the box in the depth-first order of
Box::visit_perimiter (outer dimension slowest). -/
def boxCells (lo hi : List Nat) : List (List Nat) :=
  match lo, hi with
  | [], [] => [[]]
  | a :: lo2, b :: hi2 =>
    ((List.range (b + 1 - a)).map (fun k => a + k)).flatMap
      (fun x => (boxCells lo2 hi2).map (fun rest => x :: rest))
  | _, _ => []

/-- The cells Box::visit_perimiter passes to its callback. -/
def perimeterCells (lo hi : List Nat) : List (List Nat) :=
  (boxCells lo hi).filter (isPerimeter lo hi)

/-- Errors HilbertCurve::query and the Range and Ranges classes can
throw: the two domain_error checks of query, the capacity check of
Ranges::add, the start and end check of the Range constructor, and the
dimension check of the Box constructor. -/
inductive QErr where
  | invalidParam : QErr
  | capacity : QErr
  | badRange : QErr
deriving Repr, DecidableEq

/-- Range construction followed by Ranges::add on a container with the
given capacity (capacity 0 means unlimited). -/
def rangesAdd (capacity : Nat) (rs : List (Nat × Nat)) (r : Nat × Nat) :
    Except QErr (List (Nat × Nat)) :=
  if r.1 > r.2 then .error .badRange
  else if capacity ≠ 0 ∧ rs.length ≥ capacity then .error .capacity
  else .ok (rs ++ [r])

/-- Helper for maximal runs of consecutive values in a list. -/
def runsAux (s prev : Nat) : List Nat → List (Nat × Nat)
  | [] => [(s, prev)]
  | b :: rest => if b = prev + 1 then runsAux s b rest else (s, prev) :: runsAux b b rest

/-- Maximal runs of consecutive values: the inner loop
while (i < list.size() - 1 && list[i + 1] == list[i] + 1) i++ of query
advances exactly to the end of the run containing position i. -/
def runs : List Nat → List (Nat × Nat)
  | [] => []
  | a :: rest => runsAux a a rest

/-- The main loop of HilbertCurve::query over the sorted index list,
expressed on its maximal runs: a run that is not last bridges into the
following run when the point after the run lies inside the box, and
otherwise a range from the pending start to the end of the run is added.
The pending start (range_start in the source, with None for -1) is the
start of the earliest bridged run. -/
def coalesce (bits dim : Nat) (lo hi : List Nat) (capacity : Nat)
    (start : Option Nat) (rs : List (Nat × Nat)) :
    List (Nat × Nat) → Except QErr (List (Nat × Nat))
  | [] => .ok rs
  | (a, b) :: rest =>
    let s := start.getD a
    match rest with
    | [] => rangesAdd capacity rs (s, b)
    | _ =>
      if boxContains lo hi (point bits dim (b + 1)) then
        coalesce bits dim lo hi capacity (some s) rs rest
      else
        match rangesAdd capacity rs (s, b) with
        | .error e => .error e
        | .ok rs2 => coalesce bits dim lo hi capacity none rs2 rest

/-- HilbertCurve::query of src/src/rtree_hilbert/hilbert_curve.cpp:
parameter checks, perimeter enumeration, sort, coalescing, and the final
copy into a container of capacity max_ranges when more than max_ranges
ranges were produced (Ranges::add throws once the capacity is reached,
so that copy only terminates normally when max_ranges is 0, in which
case the capacity is unlimited). -/
def query (bits dim : Nat) (lo hi : List Nat) (maxRanges bufferSize : Int) :
    Except QErr (List (Nat × Nat)) := do
  if maxRanges < 0 then throw .invalidParam
  if bufferSize ≤ maxRanges then throw .invalidParam
  let bufSize := if maxRanges = 0 then 0 else bufferSize
  if lo.length ≠ hi.length then throw .invalidParam
  let list := ((perimeterCells lo hi).map (index bits dim)).insertionSort (· ≤ ·)
  let ranges ← coalesce bits dim lo hi bufSize.toNat none [] (runs list)
  if ranges.length ≤ maxRanges.toNat then
    return ranges
  else
    ranges.foldlM (rangesAdd maxRanges.toNat) []

/-- Membership of a value in the union of a list of closed ranges. -/
def inRanges (rs : List (Nat × Nat)) (v : Nat) : Bool :=
  rs.any (fun r => r.1 ≤ v && v ≤ r.2)

/-- Test for a specific thrown error. -/
def isErr {α : Type} (e : Except QErr α) (q : QErr) : Bool :=
  match e with
  | .error q2 => q2 = q
  | .ok _ => false

end HilbertCurveCpp

namespace HilbertCurveCpp

/-- Ordering of a run list: each run is nonempty (fst at most snd) and
runs do not decrease (snd of a run at most fst of the next).  The runs
of a sorted list satisfy this. -/
def RunsChain : List (Nat × Nat) → Prop
  | [] => True
  | [ab] => ab.1 ≤ ab.2
  | ab :: cd :: rest => ab.1 ≤ ab.2 ∧ ab.2 ≤ cd.1 ∧ RunsChain (cd :: rest)

end HilbertCurveCpp

namespace HilbertRTree

/-- Axis-aligned rectangle with integer coordinates: hilbert::Rectangle of
src/src/rtree_hilbert/hilbert_rtree.h, whose Point is a vector of long long. -/
structure Rect where
  lower : List Int
  higher : List Int
deriving DecidableEq

/-- Errors the hilbert R-tree code can throw, plus markers for undefined
behaviour (null dereference, reading a dangling node) and for exhausted
loop bounds of the model. -/
inductive HErr where
  | dimMismatch   -- the runtime or domain errors of intersects, contains, operator==
  | selfParent    -- the set_parent self check
  | notLeaf       -- insert_leaf_entry on a non leaf
  | leafNode      -- insert_inner_entry on a leaf
  | overflowing   -- insert on an overflowing node
  | removeKind    -- the remove_leaf_entry and remove_inner_entry kind checks
  | adjustLoop    -- the adjust_tree iteration guard
  | fuel          -- a recursion bound of the model was exceeded
  | corrupt       -- undefined behaviour in the C++ (bad cast, empty set decrement, missing node)
deriving DecidableEq

instance exceptDecEq {α β : Type} [DecidableEq α] [DecidableEq β] :
    DecidableEq (Except α β) := fun a b =>
  match a, b with
  | .ok x, .ok y =>
    if h : x = y then .isTrue (by rw [h]) else .isFalse (by intro hc; cases hc; exact h rfl)
  | .error x, .error y =>
    if h : x = y then .isTrue (by rw [h]) else .isFalse (by intro hc; cases hc; exact h rfl)
  | .ok _, .error _ => .isFalse (by intro hc; cases hc)
  | .error _, .ok _ => .isFalse (by intro hc; cases hc)

/-- Rectangle::get_center: componentwise (lower + higher) / 2 with the C++
truncating division. -/
def Rect.center (r : Rect) : List Int :=
  (List.range r.lower.length).map
    (fun i => Int.tdiv (r.lower.getD i 0 + r.higher.getD i 0) 2)

/-- The componentwise comparison loop shared by Rectangle::operator==. -/
def rectEqB (a b : Rect) : Bool :=
  List.all (List.range a.lower.length)
    (fun i => a.lower.getD i 0 = b.lower.getD i 0 && a.higher.getD i 0 = b.higher.getD i 0)

/-- The componentwise overlap loop of Rectangle::intersects. -/
def rectIntersectsB (a b : Rect) : Bool :=
  List.all (List.range a.lower.length)
    (fun i => !(a.lower.getD i 0 > b.higher.getD i 0 || a.higher.getD i 0 < b.lower.getD i 0))

/-- The componentwise containment loop of Rectangle::contains. -/
def rectContainsB (a b : Rect) : Bool :=
  List.all (List.range a.lower.length)
    (fun i => !(a.lower.getD i 0 > b.lower.getD i 0 || b.higher.getD i 0 > a.higher.getD i 0))

/-- Rectangle::intersects; throws when the dimensions disagree. -/
def Rect.intersects (a b : Rect) : Except HErr Bool :=
  if a.lower.length ≠ b.lower.length then .error .dimMismatch
  else .ok (rectIntersectsB a b)

/-- Rectangle::contains; throws when the dimensions disagree. -/
def Rect.containsR (a b : Rect) : Except HErr Bool :=
  if a.lower.length ≠ b.lower.length then .error .dimMismatch
  else .ok (rectContainsB a b)

/-- Rectangle::operator==; throws when the dimensions disagree. -/
def Rect.eqR (a b : Rect) : Except HErr Bool :=
  if a.lower.length ≠ b.lower.length then .error .dimMismatch
  else .ok (rectEqB a b)

/-- The Rectangle(Point lo, Point hi) constructor: the members are
initialized by moving from the parameters, after which the mismatch check
compares the sizes of the moved-from vectors, which the move constructor
of std::vector leaves empty.  The check therefore compares 0 with 0. -/
def mkRectangle (lo hi : List Int) : Except HErr Rect :=
  let movedLo : List Int := []
  let movedHi : List Int := []
  if movedLo.length ≠ movedHi.length then .error .dimMismatch
  else .ok ⟨lo, hi⟩

/-- A LeafEntry: allocation id (standing for the pointer identity), the
bounding rectangle, the hilbert value, and the payload handle. -/
structure LeafE where
  id : Nat
  rect : Rect
  lhv : Int
  elem : Nat
deriving DecidableEq

/-- A node entry: a LeafEntry, or an InnerNode wrapper carrying its own
allocation id and the id of the child node it points to. -/
inductive Entry where
  | leafE : LeafE → Entry
  | innerE : Nat → Nat → Entry
deriving DecidableEq

def Entry.id : Entry → Nat
  | .leafE e => e.id
  | .innerE i _ => i

def Entry.isLeafEntry : Entry → Bool
  | .leafE _ => true
  | .innerE _ _ => false

/-- A Node of hilbert_rtree.h: leaf flag, parent and sibling links (node
ids), the ordered entry set, mbr and lhv.  The fill bounds and the curve
are global to the tree. -/
structure NodeR where
  leaf : Bool
  parent : Option Nat
  prevSib : Option Nat
  nextSib : Option Nat
  entries : List Entry
  mbr : Rect
  lhv : Int
deriving DecidableEq

/-- The tree state: the arena of live nodes (the all_nodes set, node ids
standing for pointers allocated in increasing address order), the
allocation counter shared by nodes and entry objects, the root, the fill
bounds and the curve parameters. -/
structure HState where
  nodes : List (Nat × NodeR)
  nextId : Nat
  root : Option Nat
  minE : Nat
  maxE : Nat
  bits : Nat
  dim : Nat
deriving DecidableEq

def HState.getNode (s : HState) (i : Nat) : Option NodeR :=
  (s.nodes.find? (fun p => p.1 = i)).map Prod.snd

def HState.setNode (s : HState) (i : Nat) (n : NodeR) : HState :=
  if (s.nodes.find? (fun p => p.1 = i)).isSome then
    { s with nodes := s.nodes.map (fun p => if p.1 = i then (i, n) else p) }
  else
    { s with nodes := s.nodes ++ [(i, n)] }

def HState.eraseNode (s : HState) (i : Nat) : HState :=
  { s with nodes := s.nodes.filter (fun p => p.1 ≠ i) }

def HState.liveNode (s : HState) (i : Nat) : Bool :=
  (s.nodes.find? (fun p => p.1 = i)).isSome

/-- Dereference a node pointer: a dead or unknown id is undefined
behaviour in the C++. -/
def getN (s : HState) (i : Nat) : Except HErr NodeR :=
  match s.getNode i with
  | some n => .ok n
  | none => .error .corrupt

/-- get_lhv of an entry: the stored value for a leaf entry, the lhv of
the pointed-to node for an inner entry. -/
def entryLhv (s : HState) : Entry → Except HErr Int
  | .leafE e => .ok e.lhv
  | .innerE _ nid => do
    let n ← getN s nid
    return n.lhv

/-- get_mbr of an entry. -/
def entryMbr (s : HState) : Entry → Except HErr Rect
  | .leafE e => .ok e.rect
  | .innerE _ nid => do
    let n ← getN s nid
    return n.mbr

/-- The descent of an ordered std::set insertion: the new entry goes
before the first existing entry that compares greater under
(lhv, pointer), and an entry with the same identity leaves the set
unchanged. -/
def insertSortedGo (s : HState) (e : Entry) (k : Int) : List Entry → Except HErr (List Entry)
  | [] => .ok [e]
  | e2 :: rest =>
    if e2.id = e.id then
      .ok (e2 :: rest)
    else
      match entryLhv s e2 with
      | .error err => .error err
      | .ok k2 =>
        if k < k2 ∨ (k = k2 ∧ e.id < e2.id) then
          .ok (e :: e2 :: rest)
        else
          match insertSortedGo s e k rest with
          | .error err => .error err
          | .ok rest2 => .ok (e2 :: rest2)

/-- Ordered insertion into an entry set.  std::set orders by the
comparator (lhv, then pointer); node ids stand for pointers allocated in
increasing address order. -/
def insertSorted (s : HState) (e : Entry) (l : List Entry) : Except HErr (List Entry) := do
  let k ← entryLhv s e
  insertSortedGo s e k l

def INT64MIN : Int := -(2 ^ 63)

/-- The maximum loop of Node::adjust_lhv starting from INT64_MIN. -/
def maxLhv (s : HState) : List Entry → Int → Except HErr Int
  | [], m => .ok m
  | e :: rest, m => do
    let k ← entryLhv s e
    maxLhv s rest (if k > m then k else m)

/-- Node::adjust_lhv: maximum entry lhv starting from INT64_MIN. -/
def adjustLhvOf (s : HState) (n : NodeR) : Except HErr NodeR := do
  let m ← maxLhv s n.entries INT64MIN
  return { n with lhv := m }

/-- The min and max loop of Node::adjust_mbr over the first dims
coordinates of every entry mbr (an entry rectangle shorter than dims
would be an out-of-bounds read in the C++, reported as corrupt). -/
def mbrFold (s : HState) (dims : Nat) :
    List Entry → List Int → List Int → Except HErr (List Int × List Int)
  | [], lo, hi => .ok (lo, hi)
  | e :: rest, lo, hi =>
    match entryMbr s e with
    | .error err => .error err
    | .ok r =>
      if r.lower.length < dims ∨ r.higher.length < dims then .error .corrupt
      else
        mbrFold s dims rest
          ((List.range dims).map (fun i => min (lo.getD i 0) (r.lower.getD i 0)))
          ((List.range dims).map (fun i => max (hi.getD i 0) (r.higher.getD i 0)))

/-- Node::adjust_mbr. -/
def adjustMbrOf (s : HState) (n : NodeR) : Except HErr NodeR := do
  let dims := s.dim
  if n.entries.isEmpty then
    return { n with mbr := ⟨List.replicate dims 0, List.replicate dims 0⟩ }
  else do
    let lohi ← mbrFold s dims n.entries
      (List.replicate dims ((2 : Int) ^ 63 - 1)) (List.replicate dims INT64MIN)
    return { n with mbr := ⟨lohi.1, lohi.2⟩ }

/-- Node::set_parent including its self check. -/
def setParentOf (nid : Nat) (n : NodeR) (p : Option Nat) : Except HErr NodeR :=
  if p = some nid then .error .selfParent
  else .ok { n with parent := p }

def modifyN (s : HState) (i : Nat) (f : NodeR → Except HErr NodeR) : Except HErr HState := do
  let n ← getN s i
  let n2 ← f n
  return s.setNode i n2

def setParent (s : HState) (child : Nat) (p : Option Nat) : Except HErr HState :=
  modifyN s child (fun n => setParentOf child n p)

def setPrev (s : HState) (nid : Nat) (v : Option Nat) : Except HErr HState :=
  modifyN s nid (fun n => .ok { n with prevSib := v })

def setNext (s : HState) (nid : Nat) (v : Option Nat) : Except HErr HState :=
  modifyN s nid (fun n => .ok { n with nextSib := v })

/-- Node::insert_leaf_entry. -/
def insertLeafEntry (s : HState) (nid : Nat) (e : LeafE) : Except HErr HState := do
  let n ← getN s nid
  if !n.leaf then throw .notLeaf
  if n.entries.length > s.maxE then throw .overflowing
  let es ← insertSorted s (.leafE e) n.entries
  return s.setNode nid { n with entries := es }

/-- Node::insert_inner_entry: ordered insertion, parent update of the
child, and sibling links of the child from the neighbouring entries. -/
def insertInnerEntry (s : HState) (nid : Nat) (wid cid : Nat) : Except HErr HState := do
  let n ← getN s nid
  if n.leaf then throw .leafNode
  if n.entries.length > s.maxE then throw .overflowing
  if n.entries.any (fun e => e.id = wid) then return s
  let es ← insertSorted s (.innerE wid cid) n.entries
  let s ← pure (s.setNode nid { n with entries := es })
  let s ← setParent s cid (some nid)
  let idx := (es.findIdx (fun e => e.id = wid))
  let prevE := if idx = 0 then none else es.get? (idx - 1)
  let nextE := if idx = es.length - 1 then none else es.get? (idx + 1)
  let prevSib ← match prevE with
    | none => pure none
    | some (.innerE _ pid) => pure (some pid)
    | some (.leafE _) => throw .corrupt  -- dynamic_cast on a leaf entry then dereference
  let nextSib ← match nextE with
    | none => pure none
    | some (.innerE _ qid) => pure (some qid)
    | some (.leafE _) => throw .corrupt
  let s ← setPrev s cid prevSib
  let s ← match prevSib with
    | none => pure s
    | some pid => setNext s pid (some cid)
  let s ← setNext s cid nextSib
  match nextSib with
  | none => pure s
  | some qid => setPrev s qid (some cid)

/-- The erase loop of Node::remove_leaf_entry: drop the first entry whose
mbr equals the rectangle under operator== (which throws on a dimension
mismatch). -/
def removeLeafGo (rect : Rect) : List Entry → Except HErr (List Entry)
  | [] => .ok []
  | e :: rest =>
    match e with
    | .leafE le =>
      match Rect.eqR le.rect rect with
      | .error err => .error err
      | .ok eq =>
        if eq then .ok rest
        else
          match removeLeafGo rect rest with
          | .error err => .error err
          | .ok r2 => .ok (e :: r2)
    | .innerE _ _ => .error .corrupt  -- dynamic_cast<LeafEntry*> then dereference

/-- Node::remove_leaf_entry: silent when no entry matches. -/
def removeLeafEntry (s : HState) (nid : Nat) (rect : Rect) : Except HErr HState := do
  let n ← getN s nid
  if !n.leaf then throw .removeKind
  let es ← removeLeafGo rect n.entries
  return s.setNode nid { n with entries := es }

/-- The erase loop of Node::remove_inner_entry. -/
def removeInnerGo (child : Nat) : List Entry → List Entry
  | [] => []
  | e :: rest =>
    match e with
    | .innerE _ cid => if cid = child then rest else e :: removeInnerGo child rest
    | .leafE _ => e :: removeInnerGo child rest

/-- Node::remove_inner_entry: erase the entry pointing to the child. -/
def removeInnerEntry (s : HState) (nid : Nat) (child : Nat) : Except HErr HState := do
  let n ← getN s nid
  if n.leaf then throw .removeKind
  return s.setNode nid { n with entries := removeInnerGo child n.entries }

/-- Node::reset_entries: clear the child sibling links of inner entries,
then clear the entries and zero the lhv. -/
def resetEntries (s : HState) (nid : Nat) : Except HErr HState := do
  let n ← getN s nid
  let mut s2 := s
  if !n.leaf then
    for e in n.entries do
      match e with
      | .innerE _ cid =>
        if s2.liveNode cid then
          s2 ← setPrev s2 cid none
          s2 ← setNext s2 cid none
      | .leafE _ => pure ()
  return s2.setNode nid { n with entries := [], lhv := 0 }

/-- The walk of Node::get_siblings along next links: stop on a null
pointer, on self, on a revisit, on a parent change, when num nodes are
collected, or after 10000 steps (the MAX_ITERATIONS guard). -/
def getSiblingsGo (s : HState) (parent0 : Option Nat) (nid num : Nat) :
    Nat → List Nat → List Nat → Option Nat → Except HErr (List Nat)
  | _, result, _, none => .ok result
  | 0, result, _, some _ => .ok result
  | fuel + 1, result, visited, some rid =>
    if result.length ≥ num then .ok result
    else if rid = nid then .ok result
    else if visited.contains rid then .ok result
    else
      match getN s rid with
      | .error e => .error e
      | .ok rn =>
        if rn.parent ≠ parent0 then .ok result
        else getSiblingsGo s parent0 nid num fuel (result ++ [rid]) (visited ++ [rid]) rn.nextSib

/-- Node::get_siblings. -/
def getSiblings (s : HState) (nid : Nat) (num : Nat) : Except HErr (List Nat) := do
  let n ← getN s nid
  getSiblingsGo s n.parent nid num 10000 [nid] [nid] n.nextSib

/-- validate_and_fix_child_chain: rebuild the child sibling chain from
the ordered entry list. -/
def fixChildChain (s : HState) (pid : Nat) : Except HErr HState := do
  match s.getNode pid with
  | none => return s
  | some p =>
    if p.leaf ∨ p.entries.isEmpty then return s
    let children := p.entries.filterMap (fun e => match e with
      | .innerE _ cid => some cid
      | .leafE _ => none)
    if children.isEmpty then return s
    let mut s2 := s
    for c in children do
      s2 ← setPrev s2 c none
      s2 ← setNext s2 c none
    for i in List.range children.length do
      if i > 0 then
        s2 ← setPrev s2 (children.getD i 0) (some (children.getD (i - 1) 0))
        s2 ← setNext s2 (children.getD (i - 1) 0) (some (children.getD i 0))
    return s2

/-- fix_cross_parent_sibling_links. -/
def fixCrossParent (s : HState) (sibs : List Nat) : Except HErr HState := do
  if sibs.isEmpty then return s
  let n0 ← getN s (sibs.getD 0 0)
  if n0.leaf then return s
  let mut s2 := s
  for i in List.range (sibs.length - 1) do
    let cur ← getN s2 (sibs.getD i 0)
    let nxt ← getN s2 (sibs.getD (i + 1) 0)
    if cur.entries.isEmpty ∨ nxt.entries.isEmpty then
      pure ()
    else
      let lastE := cur.entries.getD (cur.entries.length - 1) (.innerE 0 0)
      let firstE := nxt.entries.getD 0 (.innerE 0 0)
      match lastE, firstE with
      | .innerE _ lastC, .innerE _ firstC => do
        let lc ← getN s2 lastC
        let fc ← getN s2 firstC
        if lastC = firstC ∨ lastC = sibs.getD i 0 ∨ firstC = sibs.getD (i + 1) 0 ∨
            lc.parent = some firstC ∨ fc.parent = some lastC then
          pure ()
        else do
          s2 ← setNext s2 lastC (some firstC)
          s2 ← setPrev s2 firstC (some lastC)
      | _, _ => pure ()  -- the dynamic_cast fails: continue
  return s2

/-- redistribute_entries: batches of ceil(n / k) entries in set order
into the sibling nodes, adjusting lhv and mbr at every batch end, then
the child chain and cross parent repairs. -/
def redistributeEntries (s : HState) (entries : List Entry) (sibs : List Nat) :
    Except HErr HState := do
  if sibs.isEmpty ∨ entries.isEmpty then return s
  let batchSize := (entries.length + sibs.length - 1) / sibs.length
  let mut s2 := s
  let mut sibIdx := 0
  let mut currentBatch := 0
  for e in entries do
    match e with
    | .leafE le => s2 ← insertLeafEntry s2 (sibs.getD sibIdx 0) le
    | .innerE wid cid => do
      -- direct set insert plus parent update, without sibling link updates
      let nid := sibs.getD sibIdx 0
      let n ← getN s2 nid
      let es ← insertSorted s2 (.innerE wid cid) n.entries
      s2 := s2.setNode nid { n with entries := es }
      s2 ← setParent s2 cid (some nid)
    currentBatch := currentBatch + 1
    if currentBatch ≥ batchSize ∧ sibIdx < sibs.length then
      s2 ← modifyN s2 (sibs.getD sibIdx 0) (adjustLhvOf s2)
      s2 ← modifyN s2 (sibs.getD sibIdx 0) (adjustMbrOf s2)
      sibIdx := sibIdx + 1
      currentBatch := 0
      if sibIdx = sibs.length then
        sibIdx := sibIdx - 1
  if sibIdx < sibs.length then
    s2 ← modifyN s2 (sibs.getD sibIdx 0) (adjustLhvOf s2)
    s2 ← modifyN s2 (sibs.getD sibIdx 0) (adjustMbrOf s2)
  for nid in sibs do
    let n ← getN s2 nid
    if !n.leaf ∧ !n.entries.isEmpty then
      s2 ← fixChildChain s2 nid
  fixCrossParent s2 sibs

/-- The inner transform of HilbertCurve::index of the hilbert_curve.cpp
kept under src/src (the revision the build links): Gray decode followed
by the exchange loop, on the coordinate list itself. -/
def tiv (bits : Nat) (x0 : List Nat) : List Nat :=
  let n := x0.length
  let t := x0.getD (n - 1) 0 >>> 1
  let x1 := ((List.range (n - 1)).reverse).foldl
    (fun y i => y.set (i + 1) (y.getD (i + 1) 0 ^^^ y.getD i 0)) x0
  let x2 := x1.set 0 (x1.getD 0 0 ^^^ t)
  ((List.range (bits - 1)).map (fun k => 2 ^ (k + 1))).foldl
    (fun y q => ((List.range n).reverse).foldl (fun z i =>
      let p := q - 1
      if z.getD i 0 &&& q ≠ 0 then
        z.set 0 (z.getD 0 0 ^^^ p)
      else
        let t2 := (z.getD 0 0 ^^^ z.getD i 0) &&& p
        (z.set 0 (z.getD 0 0 ^^^ t2)).set i (z.getD i 0 ^^^ t2)) y)
    x2

/-- HilbertCurve::to_index: pack the transposed form into an index. -/
def toIdx (bits len : Nat) (x : List Nat) : Nat :=
  let n := x.length
  (List.range bits).foldl
    (fun b i =>
      (List.range n).foldl
        (fun b j =>
          if x.getD j 0 >>> (bits - 1 - i) &&& 1 = 1 then
            b ||| (1 <<< (len - 1 - (i * n + j)))
          else b)
        b)
    0

/-- The hilbert index of a rectangle center under the tree curve.
Coordinates are non-negative in every use considered here. -/
def curveIndex (bits dim : Nat) (center : List Int) : Int :=
  Int.ofNat (toIdx bits (bits * dim) (tiv bits (center.map Int.toNat)))

/-- A fresh node as built by the Node constructor: not a leaf, no links,
a zero mbr of the curve dimension, lhv 0. -/
def newNodeR (dim : Nat) : NodeR :=
  ⟨false, none, none, none, [], ⟨List.replicate dim 0, List.replicate dim 0⟩, 0⟩

/-- The entry loop of RTree::choose_leaf: return the first entry whose
lhv is at least h (the loop returns from inside its body). -/
def firstGE (s : HState) (h : Int) : List Entry → Except HErr (Option Entry)
  | [] => .ok none
  | e :: rest =>
    match entryLhv s e with
    | .error err => .error err
    | .ok k => if k ≥ h then .ok (some e) else firstGE s h rest

/-- RTree::choose_leaf: descend into the child of the first entry in set
order with lhv at least h, otherwise of the last entry. -/
def chooseLeaf (s : HState) : Nat → Nat → Int → Except HErr Nat
  | 0, _, _ => .error .fuel
  | fuel + 1, nid, h => do
    let n ← getN s nid
    if n.leaf then return nid
    let chosen ← firstGE s h n.entries
    let e ← match chosen with
      | some e => pure e
      | none =>
        if n.entries.isEmpty then throw .corrupt  -- decrement of the begin iterator
        else pure (n.entries.getD (n.entries.length - 1) (.innerE 0 0))
    match e with
    | .innerE _ cid => chooseLeaf s fuel cid h
    | .leafE _ => throw .corrupt  -- dynamic_cast<InnerNode*> then get_node on a leaf entry

/-- RTree::handle_overflow: pool the entries of the target and its up to
one next sibling plus the new entry, allocate a fresh node when all are
full, redistribute, and relink the sibling chain. -/
def handleOverflow (s0 : HState) (target : Nat) (e : Entry) :
    Except HErr (Option Nat × List Nat × HState) := do
  let mut s := s0
  let sibs0 ← getSiblings s target 2
  let firstN ← getN s (sibs0.getD 0 0)
  let lastN ← getN s (sibs0.getD (sibs0.length - 1) 0)
  let leftPrev := firstN.prevSib
  let rightNext := lastN.nextSib
  let tn ← getN s target
  let originalParent := tn.parent
  let mut entries ← insertSorted s e []
  for nid in sibs0 do
    let n ← getN s nid
    for e2 in n.entries do
      entries ← insertSorted s e2 entries
    s ← resetEntries s nid
    s ← setPrev s nid none
    s ← setNext s nid none
  let mut sibs := sibs0
  let mut newNode : Option Nat := none
  if entries.length > sibs0.length * s.maxE then
    let nid := s.nextId
    let fresh := { newNodeR s.dim with leaf := e.isLeafEntry }
    s := { s.setNode nid fresh with nextId := nid + 1 }
    s ← setParent s nid originalParent
    sibs := sibs ++ [nid]
    newNode := some nid
  s ← redistributeEntries s entries sibs
  for nid in sibs do
    s ← setParent s nid originalParent
  for i in List.range sibs.length do
    if i > 0 then
      s ← setPrev s (sibs.getD i 0) (some (sibs.getD (i - 1) 0))
    else
      s ← setPrev s (sibs.getD i 0) leftPrev
    if i < sibs.length - 1 then
      s ← setNext s (sibs.getD i 0) (some (sibs.getD (i + 1) 0))
    else
      s ← setNext s (sibs.getD i 0) rightNext
  match leftPrev with
  | some lp =>
    if some lp ≠ some (sibs.getD 0 0) then
      s ← setNext s lp (some (sibs.getD 0 0))
  | none => pure ()
  match rightNext with
  | some rn =>
    if some rn ≠ some (sibs.getD (sibs.length - 1) 0) then
      s ← setPrev s rn (some (sibs.getD (sibs.length - 1) 0))
  | none => pure ()
  return (newNode, sibs, s)

/-- Sorted insertion of a node id into an ordered id list without
duplicates: the iteration order of a std::set of node pointers. -/
def insertIdGo (i : Nat) : List Nat → List Nat
  | [] => [i]
  | x :: rest => if i < x then i :: x :: rest else x :: insertIdGo i rest

def insertId (l : List Nat) (i : Nat) : List Nat :=
  if l.contains i then l else insertIdGo i l

def idSet (l : List Nat) : List Nat := l.foldl insertId []

/-- RTree::adjust_tree: walk upward inserting the split node into the
parent (splitting further on overflow), adjusting mbr and lhv of the
parents of the affected set, growing a new root when the root split.
The iteration guard of the source allows 1000 rounds. -/
def adjustTreeLoop (s0 : HState) : Nat → Nat → Nat → Option Nat → List Nat →
    Except HErr (Nat × HState)
  | 0, _, _, _, _ => .error .adjustLoop
  | fuel + 1, newRoot0, N, NN, S => do
    let mut s := s0
    let mut newRoot := newRoot0
    let n ← getN s N
    match n.parent with
    | none => do
      match NN with
      | some nn => do
        let wid1 := s.nextId
        let wid2 := s.nextId + 1
        let rid := s.nextId + 2
        s := { s.setNode rid (newNodeR s.dim) with nextId := s.nextId + 3 }
        s ← insertInnerEntry s rid wid1 N
        s ← insertInnerEntry s rid wid2 nn
        s ← fixChildChain s rid
        newRoot := rid
      | none => pure ()
      s ← modifyN s newRoot (adjustLhvOf s)
      s ← modifyN s newRoot (adjustMbrOf s)
      return (newRoot, s)
    | some Np => do
      let mut newSiblings : List Nat := []
      let mut PP : Option Nat := none
      match NN with
      | some nn => do
        let wid := s.nextId
        s := { s with nextId := s.nextId + 1 }
        let np ← getN s Np
        if np.entries.length < s.maxE then
          s ← insertInnerEntry s Np wid nn
          s ← fixChildChain s Np
          s ← modifyN s Np (adjustLhvOf s)
          s ← modifyN s Np (adjustMbrOf s)
          newSiblings := [Np]
        else do
          let (pp, ns, s2) ← handleOverflow s Np (.innerE wid nn)
          s := s2
          PP := pp
          newSiblings := ns
          for sib in ns do
            let sn ← getN s sib
            if !sn.leaf then
              s ← fixChildChain s sib
      | none => newSiblings := [Np]
      let mut P : List Nat := []
      for node in idSet S do
        if s.liveNode node then
          let nd ← getN s node
          match nd.parent with
          | some p => P := insertId P p
          | none => pure ()
      for p in P do
        if s.liveNode p then
          s ← modifyN s p (adjustLhvOf s)
          s ← modifyN s p (adjustMbrOf s)
          let pn ← getN s p
          if !pn.leaf then
            s ← fixChildChain s p
      adjustTreeLoop s fuel newRoot Np PP newSiblings

/-- RTree::insert. -/
def insert (s0 : HState) (rect : Rect) (elem : Nat) : Except HErr HState := do
  let mut s := s0
  let h := curveIndex s.bits s.dim rect.center
  let rootId ← match s.root with
    | none => do
      let rid := s.nextId
      s := { s.setNode rid { newNodeR s.dim with leaf := true } with
             nextId := rid + 1, root := some rid }
      pure rid
    | some r => pure r
  let eid := s.nextId
  s := { s with nextId := eid + 1 }
  let L ← chooseLeaf s 100 rootId h
  let ln ← getN s L
  if ln.entries.length < s.maxE then do
    s ← insertLeafEntry s L ⟨eid, rect, h, elem⟩
    s ← modifyN s L (adjustLhvOf s)
    s ← modifyN s L (adjustMbrOf s)
    let (r2, s2) ← adjustTreeLoop s 1000 rootId L none [L]
    return { s2 with root := some r2 }
  else do
    let (nn, sibs, s2) ← handleOverflow s L (.leafE ⟨eid, rect, h, elem⟩)
    let (r2, s3) ← adjustTreeLoop s2 1000 rootId L nn sibs
    return { s3 with root := some r2 }

/-- RTree::_search. -/
def searchRec (s : HState) : Nat → Nat → Rect → Except HErr (List Nat)
  | 0, _, _ => .error .fuel
  | fuel + 1, nid, rect => do
    if !s.liveNode nid then return []
    let n ← getN s nid
    let mut result : List Nat := []
    if n.leaf then
      for e in n.entries do
        let m ← entryMbr s e
        let hit ← Rect.intersects m rect
        if hit then
          match e with
          | .leafE le => result := result ++ [le.elem]
          | .innerE _ _ => throw .corrupt
    else
      for e in n.entries do
        let m ← entryMbr s e
        let hit ← Rect.intersects m rect
        if hit then
          match e with
          | .innerE _ cid => do
            let aux ← searchRec s fuel cid rect
            result := result ++ aux
          | .leafE _ => pure ()
    return result

/-- RTree::search. -/
def search (s : HState) (rect : Rect) : Except HErr (List Nat) := do
  match s.root with
  | none => return []
  | some r => searchRec s 100 r rect

/-- The leaf loop of RTree::exactSearch: return from inside the loop on
the first entry whose mbr equals the rectangle. -/
def leafFind (s : HState) (rect : Rect) : List Entry → Except HErr Bool
  | [] => .ok false
  | e :: rest =>
    match entryMbr s e with
    | .error err => .error err
    | .ok m =>
      match Rect.eqR rect m with
      | .error err => .error err
      | .ok eq => if eq then .ok true else leafFind s rect rest

/-- The inner loop of RTree::exactSearch: recurse into every entry whose
mbr contains the rectangle and return the first non-null result; a leaf
entry fails the dynamic_cast and is skipped. -/
def exactSearchGo (s : HState) (rect : Rect)
    (recur : Nat → Except HErr (Option Nat)) : List Entry → Except HErr (Option Nat)
  | [] => .ok none
  | e :: rest =>
    match entryMbr s e with
    | .error err => .error err
    | .ok m =>
      match Rect.containsR m rect with
      | .error err => .error err
      | .ok c =>
        if c then
          match e with
          | .innerE _ cid =>
            match recur cid with
            | .error err => .error err
            | .ok (some x) => .ok (some x)
            | .ok none => exactSearchGo s rect recur rest
          | .leafE _ => exactSearchGo s rect recur rest
        else exactSearchGo s rect recur rest

/-- RTree::exactSearch: descend through entries whose mbr contains the
rectangle; in a leaf return the node when some entry mbr equals it. -/
def exactSearch (s : HState) : Nat → Nat → Rect → Except HErr (Option Nat)
  | 0, _, _ => .error .fuel
  | fuel + 1, nid, rect => do
    if !s.liveNode nid then return none
    let n ← getN s nid
    if n.leaf then do
      let found ← leafFind s rect n.entries
      if found then return (some nid) else return none
    else
      exactSearchGo s rect (fun cid => exactSearch s fuel cid rect) n.entries

/-- RTree::handle_underflow. -/
def handleUnderflow (s0 : HState) (target : Nat) :
    Except HErr (Option Nat × List Nat × HState) := do
  let mut s := s0
  let sibs0 ← getSiblings s target 3
  if sibs0.isEmpty then
    return (none, [target], s)
  if sibs0.length < 2 then
    return (none, sibs0, s)
  let firstN ← getN s (sibs0.getD 0 0)
  let lastN ← getN s (sibs0.getD (sibs0.length - 1) 0)
  let mut leftPrev := firstN.prevSib
  let mut rightNext := lastN.nextSib
  match leftPrev with
  | some lp => if sibs0.contains lp then leftPrev := none
  | none => pure ()
  match rightNext with
  | some rn => if sibs0.contains rn then rightNext := none
  | none => pure ()
  let tn ← getN s target
  let originalParent := tn.parent
  let mut entries : List Entry := []
  for nid in sibs0 do
    let n ← getN s nid
    for e2 in n.entries do
      entries ← insertSorted s e2 entries
  if entries.isEmpty then
    return (none, sibs0, s)
  let mut sibs := sibs0
  let mut removed : Option Nat := none
  let shouldRemove := sibs0.length > 1 ∧ originalParent ≠ none ∧
    entries.length < sibs0.length * s.minE
  if shouldRemove then do
    removed := some (sibs.getD 0 0)
    sibs := sibs.drop 1
  if sibs.isEmpty then do
    match removed with
    | some r => return (none, [r], s)
    | none => return (none, [], s)
  for nid in sibs do
    s ← resetEntries s nid
    s ← setPrev s nid none
    s ← setNext s nid none
  match removed with
  | some r => do
    s ← resetEntries s r
    s ← setPrev s r none
    s ← setNext s r none
  | none => pure ()
  match leftPrev with
  | some lp => s ← setNext s lp none
  | none => pure ()
  match rightNext with
  | some rn => s ← setPrev s rn none
  | none => pure ()
  s ← redistributeEntries s entries sibs
  for nid in sibs do
    s ← setParent s nid originalParent
  for i in List.range sibs.length do
    if i > 0 then
      s ← setPrev s (sibs.getD i 0) (some (sibs.getD (i - 1) 0))
    else
      s ← setPrev s (sibs.getD i 0) none
    if i < sibs.length - 1 then
      s ← setNext s (sibs.getD i 0) (some (sibs.getD (i + 1) 0))
    else
      s ← setNext s (sibs.getD i 0) none
  if !sibs.isEmpty then do
    match leftPrev with
    | some lp => do
      s ← setPrev s (sibs.getD 0 0) (some lp)
      s ← setNext s lp (some (sibs.getD 0 0))
    | none => pure ()
    match rightNext with
    | some rn => do
      s ← setNext s (sibs.getD (sibs.length - 1) 0) (some rn)
      s ← setPrev s rn (some (sibs.getD (sibs.length - 1) 0))
    | none => pure ()
  return (removed, sibs, s)

/-- RTree::condense_tree. -/
def condenseTree (s0 : HState) : Nat → Nat → Option Nat → List Nat → Except HErr HState
  | 0, _, _, _ => .error .fuel
  | fuel + 1, node, delNode, sibs => do
    let mut s := s0
    let nd ← getN s node
    match nd.parent with
    | none => do
      if !nd.leaf ∧ nd.entries.length = 1 then do
        match nd.entries.getD 0 (.innerE 0 0) with
        | .innerE _ mainN =>
          if s.liveNode mainN then do
            let mn ← getN s mainN
            let data := mn.entries
            s ← resetEntries s mainN
            s ← resetEntries s node
            if mn.leaf then do
              s ← modifyN s node (fun n => .ok { n with leaf := true })
              for e in data do
                match e with
                | .leafE le => s ← insertLeafEntry s node le
                | .innerE _ _ => throw .corrupt
            else do
              for e in data do
                match e with
                | .innerE w c => s ← insertInnerEntry s node w c
                | .leafE _ => throw .corrupt
              s ← fixChildChain s node
            s := s.eraseNode mainN
        | .leafE _ => pure ()
      let nd2 ← getN s node
      if !nd2.entries.isEmpty then do
        s ← modifyN s node (adjustLhvOf s)
        s ← modifyN s node (adjustMbrOf s)
      return s
    | some np => do
      let mut newSiblings : List Nat := []
      let mut dpparent : Option Nat := none
      match delNode with
      | some dn => do
        let nodeExists := s.liveNode dn
        if nodeExists then do
          let dnr ← getN s dn
          let dnparent := dnr.parent
          match dnparent with
          | some dnp =>
            if s.liveNode dnp then do
              s ← removeInnerEntry s dnp dn
              s ← fixChildChain s dnp
              let dp ← getN s dnp
              if dp.entries.length < s.minE ∧ dp.parent ≠ none then do
                let (d2, ns2, s2) ← handleUnderflow s dnp
                s := s2
                dpparent := d2
                newSiblings := ns2
              else
                newSiblings := newSiblings ++ [dnp]
          | none => pure ()
          let dnr2 ← getN s dn
          match dnr2.prevSib with
          | some p => if s.liveNode p then s ← setNext s p dnr2.nextSib
          | none => pure ()
          match dnr2.nextSib with
          | some q => if s.liveNode q then s ← setPrev s q dnr2.prevSib
          | none => pure ()
          s ← setPrev s dn none
          s ← setNext s dn none
          s := s.eraseNode dn
      | none => pure ()
      if s.liveNode np then
        newSiblings := newSiblings ++ [np]
      let mut P : List Nat := []
      for snode in idSet sibs do
        if s.liveNode snode then do
          let sn ← getN s snode
          match sn.parent with
          | some p => if s.liveNode p then P := insertId P p
          | none => pure ()
      for p in P do
        if s.liveNode p then do
          let pn ← getN s p
          if !pn.entries.isEmpty then do
            s ← modifyN s p (adjustLhvOf s)
            s ← modifyN s p (adjustMbrOf s)
            let pn2 ← getN s p
            if !pn2.leaf then
              s ← fixChildChain s p
      condenseTree s fuel np dpparent newSiblings

/-- RTree::remove. -/
def remove (s0 : HState) (rect : Rect) : Except HErr HState := do
  match s0.root with
  | none => return s0
  | some root => do
    let mut s := s0
    let Lopt ← exactSearch s 100 root rect
    match Lopt with
    | none => return s
    | some L => do
      s ← removeLeafEntry s L rect
      let ln ← getN s L
      let mut DL : Option Nat := none
      let mut sibs : List Nat := []
      if ln.entries.length < s.minE ∧ ln.parent ≠ none then do
        let (dl, sb, s2) ← handleUnderflow s L
        DL := dl
        sibs := sb
        s := s2
      condenseTree s 1000 L DL sibs

/-- hilbert::RTree::RTree(min, max, dims, bits): the member curve is
constructed first and validates bits and dims; no check relates min and
max. -/
def new (mn mx dims bits : Int) : Except HErr HState :=
  if bits < 1 ∨ dims < 1 then .error .dimMismatch
  else .ok ⟨[], 0, none, mn.toNat, mx.toNat, bits.toNat, dims.toNat⟩

/-- Reachable node ids with their depths, by structural descent through
inner entries. -/
def reachAux (s : HState) : Nat → Nat → Nat → List (Nat × Nat)
  | 0, _, _ => []
  | fuel + 1, nid, depth =>
    match s.getNode nid with
    | none => [(nid, depth)]
    | some n =>
      (nid, depth) :: (n.entries.flatMap (fun e =>
        match e with
        | .innerE _ cid => reachAux s fuel cid (depth + 1)
        | .leafE _ => []))

def reach (s : HState) : List (Nat × Nat) :=
  match s.root with
  | none => []
  | some r => reachAux s 50 r 0

/-- The fill invariant: every reachable non-root node holds between minE
and maxE entries. -/
def checkFill (s : HState) : Bool :=
  (reach s).all (fun p =>
    if some p.1 = s.root then true
    else match s.getNode p.1 with
      | none => false
      | some n => s.minE ≤ n.entries.length ∧ n.entries.length ≤ s.maxE)

def leafDepths (s : HState) : List Nat :=
  (reach s).filterMap (fun p =>
    match s.getNode p.1 with
    | none => none
    | some n => if n.leaf then some p.2 else none)

/-- The balance invariant: all reachable leaves are at one depth. -/
def checkBalance (s : HState) : Bool :=
  match leafDepths s with
  | [] => true
  | d :: rest => rest.all (fun x => x = d)

/-- The stored rectangles with payloads, read off the reachable leaves. -/
def allEntries (s : HState) : List (Rect × Nat) :=
  (reach s).flatMap (fun p =>
    match s.getNode p.1 with
    | none => []
    | some n =>
      if n.leaf then n.entries.filterMap (fun e => match e with
        | .leafE le => some (le.rect, le.elem)
        | .innerE _ _ => none)
      else [])

/-- The unit square at (i, i). -/
def sq (i : Nat) : Rect := ⟨[(i : Int), (i : Int)], [(i : Int) + 1, (i : Int) + 1]⟩

/-- A public operation on the tree. -/
inductive Op where
  | ins : Rect → Nat → Op
  | rem : Rect → Op

/-- Run a sequence of public operations. -/
def runOps (s : HState) : List Op → Except HErr HState
  | [] => .ok s
  | Op.ins r e :: rest => do
    let s2 ← insert s r e
    runOps s2 rest
  | Op.rem r :: rest => do
    let s2 ← remove s r
    runOps s2 rest

/-- The empty tree new(1, 2, 2, 2): min 1, max 2, a 2 bit 2 dimensional
curve. -/
def treeS : HState := ⟨[], 0, none, 1, 2, 2, 2⟩

/-- The tree after insert of sq 0 into treeS. -/
def d3s1 : HState :=
  { nodes := [(0,
               { leaf := true,
                 parent := none,
                 prevSib := none,
                 nextSib := none,
                 entries := [Entry.leafE
                               { id := 1, rect := { lower := [0, 0], higher := [1, 1] }, lhv := 0, elem := 0 }],
                 mbr := { lower := [0, 0], higher := [1, 1] },
                 lhv := 0 })],
    nextId := 2,
    root := some 0,
    minE := 1,
    maxE := 2,
    bits := 2,
    dim := 2 }

/-- The tree after a further insert of sq 1. -/
def d3s2 : HState :=
  { nodes := [(0,
               { leaf := true,
                 parent := none,
                 prevSib := none,
                 nextSib := none,
                 entries := [Entry.leafE
                               { id := 1, rect := { lower := [0, 0], higher := [1, 1] }, lhv := 0, elem := 0 },
                             Entry.leafE
                               { id := 2, rect := { lower := [1, 1], higher := [2, 2] }, lhv := 1, elem := 1 }],
                 mbr := { lower := [0, 0], higher := [2, 2] },
                 lhv := 1 })],
    nextId := 3,
    root := some 0,
    minE := 1,
    maxE := 2,
    bits := 2,
    dim := 2 }

/-- The tree after a further insert of sq 2: the leaf split into the
sibling chain 0, 4 under the fresh root 7. -/
def d3s3 : HState :=
  { nodes := [(0,
               { leaf := true,
                 parent := some 7,
                 prevSib := none,
                 nextSib := some 4,
                 entries := [Entry.leafE
                               { id := 1, rect := { lower := [0, 0], higher := [1, 1] }, lhv := 0, elem := 0 },
                             Entry.leafE
                               { id := 2, rect := { lower := [1, 1], higher := [2, 2] }, lhv := 1, elem := 1 }],
                 mbr := { lower := [0, 0], higher := [2, 2] },
                 lhv := 1 }),
              (4,
               { leaf := true,
                 parent := some 7,
                 prevSib := some 0,
                 nextSib := none,
                 entries := [Entry.leafE
                               { id := 3, rect := { lower := [2, 2], higher := [3, 3] }, lhv := 11, elem := 2 }],
                 mbr := { lower := [2, 2], higher := [3, 3] },
                 lhv := 11 }),
              (7,
               { leaf := false,
                 parent := none,
                 prevSib := none,
                 nextSib := none,
                 entries := [Entry.innerE 5 0, Entry.innerE 6 4],
                 mbr := { lower := [0, 0], higher := [3, 3] },
                 lhv := 11 })],
    nextId := 8,
    root := some 7,
    minE := 1,
    maxE := 2,
    bits := 2,
    dim := 2 }

/-- The tree after remove of sq 2 from d3s3: node 4 is left reachable
with no entries, below the minimum fill of 1. -/
def d3s4 : HState :=
  { nodes := [(0,
               { leaf := true,
                 parent := some 7,
                 prevSib := none,
                 nextSib := some 4,
                 entries := [Entry.leafE
                               { id := 1, rect := { lower := [0, 0], higher := [1, 1] }, lhv := 0, elem := 0 },
                             Entry.leafE
                               { id := 2, rect := { lower := [1, 1], higher := [2, 2] }, lhv := 1, elem := 1 }],
                 mbr := { lower := [0, 0], higher := [2, 2] },
                 lhv := 1 }),
              (4,
               { leaf := true,
                 parent := some 7,
                 prevSib := some 0,
                 nextSib := none,
                 entries := [],
                 mbr := { lower := [2, 2], higher := [3, 3] },
                 lhv := 11 }),
              (7,
               { leaf := false,
                 parent := none,
                 prevSib := none,
                 nextSib := none,
                 entries := [Entry.innerE 5 0, Entry.innerE 6 4],
                 mbr := { lower := [0, 0], higher := [3, 3] },
                 lhv := 11 })],
    nextId := 8,
    root := some 7,
    minE := 1,
    maxE := 2,
    bits := 2,
    dim := 2 }

/-- The tree after insert of the 3-dimensional point rectangle at
(4, 4, 4) with payload 7 into the 2-dimensional tree d3s1: the insert
succeeds and stores the entry. -/
def c7s2 : HState :=
  { nodes := [(0,
               { leaf := true,
                 parent := none,
                 prevSib := none,
                 nextSib := none,
                 entries := [Entry.leafE
                               { id := 1, rect := { lower := [0, 0], higher := [1, 1] }, lhv := 0, elem := 0 },
                             Entry.leafE
                               { id := 2, rect := { lower := [4, 4, 4], higher := [4, 4, 4] }, lhv := 9, elem := 7 }],
                 mbr := { lower := [0, 0], higher := [4, 4] },
                 lhv := 9 })],
    nextId := 3,
    root := some 0,
    minE := 1,
    maxE := 2,
    bits := 2,
    dim := 2 }

/-- The lhv test of the choose_leaf loop, as a boolean on one entry. -/
def specGE (s : HState) (h : Int) (e : Entry) : Bool :=
  match entryLhv s e with
  | .ok k => decide (h ≤ k)
  | .error _ => false

/-- The child selection the specification describes for choose_leaf: the
first entry in set order whose lhv is at least h, otherwise the last
entry. -/
def specChooseChild (s : HState) (n : NodeR) (h : Int) : Option Entry :=
  match n.entries.find? (specGE s h) with
  | some e => some e
  | none => n.entries.getLast?

/-- Whether get_lhv of an entry evaluates without fault. -/
def lhvOk (s : HState) (e : Entry) : Bool :=
  match entryLhv s e with
  | .ok _ => true
  | .error _ => false

/-- The child graph below a node reaches only live or absent nodes and
has depth below the given bound. -/
def depthCheck (s : HState) : Nat → Nat → Bool
  | 0, _ => false
  | fuel + 1, nid =>
    match s.getNode nid with
    | none => true
    | some n => n.entries.all (fun e => match e with
        | .innerE _ cid => depthCheck s fuel cid
        | .leafE _ => true)

/-- Arena facts under which a remove of the rectangle r finds nothing:
every node mbr has the tree dimension, leaves hold only leaf entries,
every leaf entry rectangle has the tree dimension and differs from r,
and every inner entry points to a live node. -/
def nodeWf (s : HState) (r : Rect) (p : Nat × NodeR) : Bool :=
  decide (p.2.mbr.lower.length = s.dim) &&
  (!p.2.leaf || p.2.entries.all Entry.isLeafEntry) &&
  p.2.entries.all (fun e => match e with
    | .leafE le => decide (le.rect.lower.length = s.dim) && !(rectEqB r le.rect)
    | .innerE _ cid => s.liveNode cid)

/-- The hypotheses of the amended remove claim, as one boolean test. -/
def removeAbsentWf (s : HState) (r : Rect) : Bool :=
  decide (r.lower.length = s.dim) &&
  s.nodes.all (nodeWf s r) &&
  (match s.root with
   | none => true
   | some root => depthCheck s 100 root)

end HilbertRTree

namespace GutmanRTree

/-- The state of Gutman::RTree of src/src/rtree/rtree.h as its
constructor initializes it: a null root, the fill bounds, and the size
counter. -/
structure GutmanState where
  root : Option Nat
  m : Int
  M : Int
  size : Nat
deriving DecidableEq

/-- Gutman::RTree::RTree(m, M): member initialization only, with no
check relating m and M. -/
def GutmanNew (m M : Int) : Except Empty GutmanState :=
  .ok ⟨none, m, M, 0⟩

end GutmanRTree

namespace RTreeGutmanV1

/-- The error of the RTreeGutman constructor of src/unnamed/part_001. -/
inductive GErr where
  | lengthError
deriving DecidableEq

/-- The state of RTreeGutman of src/unnamed/part_001 as its constructor
initializes it. -/
structure RTG where
  root : Option Nat
  m : Int
  M : Int
deriving DecidableEq

/-- RTreeGutman::RTreeGutman(m, M) of src/unnamed/part_001: throws
std::length_error when m exceeds M / 2 under the truncating integer
division of C++. -/
def RTreeGutmanNew (m M : Int) : Except GErr RTG :=
  if m > M.tdiv 2 then .error .lengthError
  else .ok ⟨none, m, M⟩

end RTreeGutmanV1

namespace KamelFaloutsos

/-- An exact rational as a numerator and a positive denominator, the
model of a double value.  Every double operation the selection code
performs on the values considered here (min, max, subtraction, product,
comparison against the epsilon bound) is exact, so the model computes
the very values the C++ computes. -/
structure Q where
  num : Int
  den : Int
deriving DecidableEq

def ofInt (n : Int) : Q := ⟨n, 1⟩

def qLt (a b : Q) : Bool := a.num * b.den < b.num * a.den

def qLe (a b : Q) : Bool := a.num * b.den ≤ b.num * a.den

def qSub (a b : Q) : Q := ⟨a.num * b.den - b.num * a.den, a.den * b.den⟩

def qMul (a b : Q) : Q := ⟨a.num * b.num, a.den * b.den⟩

def qAdd (a b : Q) : Q := ⟨a.num * b.den + b.num * a.den, a.den * b.den⟩

def qAbs (a : Q) : Q := ⟨|a.num|, a.den⟩

def qMin (a b : Q) : Q := if qLe a b then a else b

def qMax (a b : Q) : Q := if qLe a b then b else a

/-- Rectangle of RTreeHilbertKamelFaloutsos (rtree.h).  All rectangles
share one dimension, which the Rectangle constructor of the source
enforces. -/
structure RectQ where
  min : List Q
  max : List Q
deriving DecidableEq

/-- Rectangle::area: the product of the side lengths. -/
def areaQ (r : RectQ) : Q :=
  (List.range r.min.length).foldl
    (fun a i => qMul a (qSub (r.max.getD i (ofInt 0)) (r.min.getD i (ofInt 0)))) (ofInt 1)

/-- Rectangle::calc_mbr of two rectangles (componentwise min and max). -/
def calcMbr (a b : RectQ) : RectQ :=
  ⟨(List.range a.min.length).map
      (fun i => qMin (a.min.getD i (ofInt 0)) (b.min.getD i (ofInt 0))),
   (List.range a.min.length).map
      (fun i => qMax (a.max.getD i (ofInt 0)) (b.max.getD i (ofInt 0)))⟩

/-- Rectangle::enlargement_needed. -/
def enlargementNeeded (a b : RectQ) : Q := qSub (areaQ (calcMbr a b)) (areaQ a)

/-- RTreeHilbertKamelFaloutsos::equal with the default epsilon 1e-7. -/
def eqD (x y : Q) : Bool :=
  qLe (qAbs (qSub x y)) (qMul ⟨1, 10000000⟩ (qAdd (qAbs x) (qAbs y)))

/-- DBL_MAX = (2 ^ 53 - 1) * 2 ^ 971, the initial minimum of the
selection loops, written as a numeral so the kernel evaluates
comparisons against it. -/
def DBLMAX : Q := ⟨179769313486231570814527423731704356798070567525844996598917476803157260780028538760589558632766878171540458953514382464234321326889464182768467546703537516986049910576551282076245490090389328944075868508455133942304583236903222948165808559332123348274797826204144723168738177180919299881250404026184124858368, 1⟩

/-- A child entry of an internal Block: its mbr and its LHV. -/
structure NodeKF where
  mbr : RectQ
  lhv : Nat
deriving DecidableEq

/-- std::lower_bound of h over the children sorted by LHV: the index of
the first child whose LHV is not below h (the length when none). -/
def lowerBoundIdx (nodes : List NodeKF) (h : Nat) : Nat :=
  nodes.findIdx (fun nd => !(nd.lhv < h))

/-- The subtree choice (step C3) of RTreeHilbertKamelFaloutsos::choose_leaf
on an internal block: among the children from the lower bound on whose LHV
is at least h, the one needing minimum mbr enlargement for the new
rectangle; when none qualifies, the fallback scans all children for
minimum enlargement with the tolerant-equality area tie-break.  Returns
the index of the chosen child (none models the final null check, which
throws). -/
def chooseStep (nodes : List NodeKF) (r : RectQ) (h : Nat) : Option Nat := Id.run do
  let start := lowerBoundIdx nodes h
  let mut chosen : Option Nat := none
  let mut minEnl : Q := DBLMAX
  for i in List.range nodes.length do
    if start ≤ i then
      let nd := nodes.getD i ⟨⟨[], []⟩, 0⟩
      if h ≤ nd.lhv then
        let enl := enlargementNeeded nd.mbr r
        if qLt enl minEnl then
          minEnl := enl
          chosen := some i
  if chosen = none then
    for i in List.range nodes.length do
      let nd := nodes.getD i ⟨⟨[], []⟩, 0⟩
      let enl := enlargementNeeded nd.mbr r
      match chosen with
      | none =>
        -- the tolerant-equality branch cannot fire here: it would compare
        -- a finite area against DBL_MAX and then dereference a null node
        if qLt enl minEnl then
          minEnl := enl
          chosen := some i
      | some c =>
        if qLt enl minEnl then
          minEnl := enl
          chosen := some i
        else if eqD enl minEnl then
          if qLt (areaQ nd.mbr) (areaQ ((nodes.getD c ⟨⟨[], []⟩, 0⟩)).mbr) then
            chosen := some i
  return chosen

end KamelFaloutsos

/-- C1: the claim asserts index and point are mutual inverses for every
bits >= 1, dim >= 1.  With bits = 2, dim = 2 the mappings of
src/src/rtree_hilbert/hilbert_curve.cpp are not inverse: index(point(1))
is 3, and point(index((0,1))) is (1,1).  The revision of the file kept as
src/unnamed/part_005, whose index applies transposed_index instead of
transposed_index_to_point, does invert point at the same inputs. -/
theorem C1_roundtrip_fails_at_bits2_dim2 :
    HilbertCurveCpp.index 2 2 (HilbertCurveCpp.point 2 2 1) = 3 ∧
    HilbertCurveCpp.point 2 2 (HilbertCurveCpp.index 2 2 [0, 1]) = [1, 1] ∧
    HilbertCurveV2.index 2 2 (HilbertCurveCpp.point 2 2 1) = 1 ∧
    HilbertCurveCpp.point 2 2 (HilbertCurveV2.index 2 2 [0, 1]) = [0, 1] := by
  refine ⟨by decide, by decide, by decide, by decide⟩

/-- C5: the claim asserts query returns ranges covering the index of
every box point and truncates to max_ranges.  Both parts fail on
src/src/rtree_hilbert/hilbert_curve.cpp: for bits = 3, dim = 2 the box
(0,0)..(2,4) with max_ranges = 0 yields ranges that miss the index of
the interior box point (1,3); and for bits = 2, dim = 2 the box
(0,0)..(0,1) with max_ranges = 1 makes query throw from Ranges::add
while copying two coalesced ranges into a container of capacity 1,
instead of returning a truncated list. -/
theorem C5_counterexample :
    (HilbertCurveCpp.query 3 2 [0, 0] [2, 4] 0 1024).toOption.all
        (fun rs => HilbertCurveCpp.boxContains [0, 0] [2, 4] [1, 3] &&
          !(HilbertCurveCpp.inRanges rs (HilbertCurveCpp.index 3 2 [1, 3]))) = true ∧
    (HilbertCurveCpp.query 3 2 [0, 0] [2, 4] 0 1024).isOk = true ∧
    HilbertCurveCpp.isErr (HilbertCurveCpp.query 2 2 [0, 0] [0, 1] 1 1024) .capacity = true := by
  refine ⟨by decide, by decide, by decide⟩

namespace HilbertCurveCpp

theorem runsAux_cover (l : List Nat) : ∀ s prev x, s ≤ prev →
    (x ∈ l ∨ (s ≤ x ∧ x ≤ prev)) →
    ∃ ab ∈ runsAux s prev l, ab.1 ≤ x ∧ x ≤ ab.2 := by
  induction l with
  | nil =>
    intro s prev x hsp hx
    rcases hx with hx | hx
    · cases hx
    · exact ⟨(s, prev), by simp [runsAux], hx.1, hx.2⟩
  | cons b rest ih =>
    intro s prev x hsp hx
    by_cases hb : b = prev + 1
    · have hx2 : x ∈ rest ∨ (s ≤ x ∧ x ≤ b) := by
        rcases hx with hx | hx
        · rcases List.mem_cons.mp hx with h | h
          · exact Or.inr ⟨by omega, by omega⟩
          · exact Or.inl h
        · exact Or.inr ⟨hx.1, by omega⟩
      have := ih s b x (by omega) hx2
      simpa [runsAux, hb] using this
    · rcases hx with hx | hx
      · rcases List.mem_cons.mp hx with h | h
        · have := ih b b x le_rfl (Or.inr ⟨le_of_eq h.symm, le_of_eq h⟩)
          rcases this with ⟨ab, hab, h1, h2⟩
          exact ⟨ab, by simp [runsAux, hb, hab], h1, h2⟩
        · have := ih b b x le_rfl (Or.inl h)
          rcases this with ⟨ab, hab, h1, h2⟩
          exact ⟨ab, by simp [runsAux, hb, hab], h1, h2⟩
      · exact ⟨(s, prev), by simp [runsAux, hb], hx.1, hx.2⟩

theorem runs_cover (l : List Nat) (x : Nat) (hx : x ∈ l) :
    ∃ ab ∈ runs l, ab.1 ≤ x ∧ x ≤ ab.2 := by
  match l, hx with
  | a :: rest, hx =>
    rcases List.mem_cons.mp hx with h | h
    · simpa [runs] using runsAux_cover rest a a x le_rfl (Or.inr (by omega))
    · simpa [runs] using runsAux_cover rest a a x le_rfl (Or.inl h)

theorem runsAux_first (l : List Nat) : ∀ s prev, ∃ e tail,
    runsAux s prev l = (s, e) :: tail ∧ prev ≤ e := by
  induction l with
  | nil => intro s prev; exact ⟨prev, [], by simp [runsAux], le_rfl⟩
  | cons b rest ih =>
    intro s prev
    by_cases hb : b = prev + 1
    · rcases ih s b with ⟨e, tail, heq, hle⟩
      refine ⟨e, tail, ?_, by omega⟩
      simp only [runsAux, if_pos hb]
      exact heq
    · exact ⟨prev, runsAux b b rest, by simp [runsAux, hb], le_rfl⟩

theorem runsAux_chain (l : List Nat) : ∀ s prev, s ≤ prev →
    l.Sorted (· ≤ ·) → (∀ y ∈ l, prev ≤ y) →
    RunsChain (runsAux s prev l) := by
  induction l with
  | nil => intro s prev hsp _ _; simpa [runsAux, RunsChain] using hsp
  | cons b rest ih =>
    intro s prev hsp hs hall
    have hbrest : ∀ y ∈ rest, b ≤ y := fun y hy => (List.sorted_cons.mp hs).1 y hy
    have hrest : rest.Sorted (· ≤ ·) := (List.sorted_cons.mp hs).2
    by_cases hb : b = prev + 1
    · have := ih s b (by omega) hrest hbrest
      simpa [runsAux, hb] using this
    · have hchain := ih b b le_rfl hrest hbrest
      rcases runsAux_first rest b b with ⟨e, tail, heq, _⟩
      have hpb : prev ≤ b := hall b (List.mem_cons_self b rest)
      simp only [runsAux, hb, if_neg]
      rw [heq] at hchain ⊢
      exact ⟨hsp, hpb, hchain⟩

theorem runs_chain (l : List Nat) (hs : l.Sorted (· ≤ ·)) : RunsChain (runs l) := by
  match l with
  | [] => simp [runs, RunsChain]
  | a :: rest =>
    exact runsAux_chain rest a a le_rfl (List.sorted_cons.mp hs).2
      (fun y hy => (List.sorted_cons.mp hs).1 y hy)

theorem rangesAdd_ok_mem (capacity : Nat) (rs rs2 : List (Nat × Nat)) (r : Nat × Nat)
    (h : rangesAdd capacity rs r = .ok rs2) : r ∈ rs2 ∧ ∀ r2 ∈ rs, r2 ∈ rs2 := by
  simp only [rangesAdd] at h
  split at h
  · cases h
  · split at h
    · cases h
    · cases h
      exact ⟨List.mem_append_right _ (List.mem_singleton_self r),
        fun r2 h2 => List.mem_append_left _ h2⟩

theorem coalesce_nil (bits dim : Nat) (lo hi : List Nat) (capacity : Nat)
    (start : Option Nat) (rs0 : List (Nat × Nat)) :
    coalesce bits dim lo hi capacity start rs0 [] = .ok rs0 := rfl

theorem coalesce_single (bits dim : Nat) (lo hi : List Nat) (capacity : Nat)
    (start : Option Nat) (rs0 : List (Nat × Nat)) (a b : Nat) :
    coalesce bits dim lo hi capacity start rs0 [(a, b)] =
      rangesAdd capacity rs0 (start.getD a, b) := rfl

theorem coalesce_cons2 (bits dim : Nat) (lo hi : List Nat) (capacity : Nat)
    (start : Option Nat) (rs0 : List (Nat × Nat)) (a b : Nat) (c : Nat × Nat)
    (rest2 : List (Nat × Nat)) :
    coalesce bits dim lo hi capacity start rs0 ((a, b) :: c :: rest2) =
      if boxContains lo hi (point bits dim (b + 1)) then
        coalesce bits dim lo hi capacity (some (start.getD a)) rs0 (c :: rest2)
      else
        match rangesAdd capacity rs0 (start.getD a, b) with
        | .error e => .error e
        | .ok rs2 => coalesce bits dim lo hi capacity none rs2 (c :: rest2) := rfl

theorem chain_head_le (c : Nat × Nat) (rest2 : List (Nat × Nat))
    (h : RunsChain (c :: rest2)) : c.1 ≤ c.2 := by
  match rest2, h with
  | [], h => exact h
  | d :: r3, h => exact h.1

theorem coalesce_mono (bits dim : Nat) (lo hi : List Nat) (capacity : Nat) :
    ∀ rl start rs0 rs, coalesce bits dim lo hi capacity start rs0 rl = .ok rs →
    ∀ r ∈ rs0, r ∈ rs := by
  intro rl
  induction rl with
  | nil =>
    intro start rs0 rs h
    rw [coalesce_nil] at h
    cases h
    exact fun r hr => hr
  | cons ab rest ih =>
    intro start rs0 rs h r hr
    match ab with
    | (a, b) =>
      match rest with
      | [] =>
        rw [coalesce_single] at h
        exact (rangesAdd_ok_mem _ _ _ _ h).2 r hr
      | c :: rest2 =>
        rw [coalesce_cons2] at h
        split at h
        · exact ih _ rs0 rs h r hr
        · match hadd : rangesAdd capacity rs0 (start.getD a, b) with
          | .error e => rw [hadd] at h; cases h
          | .ok rs2 =>
            rw [hadd] at h
            exact ih none rs2 rs h r ((rangesAdd_ok_mem _ _ _ _ hadd).2 r hr)

theorem coalesce_pending (bits dim : Nat) (lo hi : List Nat) (capacity : Nat) :
    ∀ rl s rs0 rs, RunsChain rl → rl ≠ [] →
    coalesce bits dim lo hi capacity (some s) rs0 rl = .ok rs →
    ∃ uv ∈ rs, uv.1 ≤ s ∧ (rl.headD (0, 0)).2 ≤ uv.2 := by
  intro rl
  induction rl with
  | nil => intro s rs0 rs _ hne _; exact absurd rfl hne
  | cons ab rest ih =>
    intro s rs0 rs hchain _ h
    match ab with
    | (a, b) =>
      match rest with
      | [] =>
        rw [coalesce_single] at h
        simp only [Option.getD_some] at h
        exact ⟨(s, b), (rangesAdd_ok_mem _ _ _ _ h).1, le_rfl, le_rfl⟩
      | c :: rest2 =>
        rw [coalesce_cons2] at h
        simp only [Option.getD_some] at h
        split at h
        · rcases ih s rs0 rs hchain.2.2 (by simp) h with ⟨uv, huv, h1, h2⟩
          refine ⟨uv, huv, h1, ?_⟩
          have hbc : b ≤ c.1 := hchain.2.1
          have hcc : c.1 ≤ c.2 := chain_head_le c rest2 hchain.2.2
          simp only [List.headD_cons] at h2 ⊢
          omega
        · match hadd : rangesAdd capacity rs0 (s, b) with
          | .error e => rw [hadd] at h; cases h
          | .ok rs2 =>
            rw [hadd] at h
            exact ⟨(s, b), coalesce_mono bits dim lo hi capacity _ none rs2 rs h _
              (rangesAdd_ok_mem _ _ _ _ hadd).1, le_rfl, le_rfl⟩

theorem coalesce_covers (bits dim : Nat) (lo hi : List Nat) (capacity : Nat) :
    ∀ rl start rs0 rs, RunsChain rl →
    (∀ s, start = some s → s ≤ (rl.headD (0, 0)).1) →
    coalesce bits dim lo hi capacity start rs0 rl = .ok rs →
    ∀ ab ∈ rl, ∃ uv ∈ rs, uv.1 ≤ ab.1 ∧ ab.2 ≤ uv.2 := by
  intro rl
  induction rl with
  | nil => intro start rs0 rs _ _ _ ab hab; cases hab
  | cons ab0 rest ih =>
    intro start rs0 rs hchain hstart h ab hab
    match ab0 with
    | (a, b) =>
      have hsa : start.getD a ≤ a := by
        match start with
        | none => exact le_rfl
        | some s => simpa using hstart s rfl
      rcases List.mem_cons.mp hab with hab | hab
      · subst hab
        match rest with
        | [] =>
          rw [coalesce_single] at h
          exact ⟨(start.getD a, b), (rangesAdd_ok_mem _ _ _ _ h).1, hsa, le_rfl⟩
        | c :: rest2 =>
          rw [coalesce_cons2] at h
          split at h
          · rcases coalesce_pending bits dim lo hi capacity _ _ _ _ hchain.2.2 (by simp) h
              with ⟨uv, huv, h1, h2⟩
            refine ⟨uv, huv, le_trans h1 hsa, ?_⟩
            have hbc : b ≤ c.1 := hchain.2.1
            have hcc : c.1 ≤ c.2 := chain_head_le c rest2 hchain.2.2
            simp only [List.headD_cons] at h2
            omega
          · match hadd : rangesAdd capacity rs0 (start.getD a, b) with
            | .error e => rw [hadd] at h; cases h
            | .ok rs2 =>
              rw [hadd] at h
              exact ⟨(start.getD a, b),
                coalesce_mono bits dim lo hi capacity _ none rs2 rs h _
                  (rangesAdd_ok_mem _ _ _ _ hadd).1, hsa, le_rfl⟩
      · match rest, hab with
        | c :: rest2, hab =>
          have hchain2 : RunsChain (c :: rest2) := hchain.2.2
          rw [coalesce_cons2] at h
          split at h
          · refine ih (some (start.getD a)) rs0 rs hchain2 ?_ h ab hab
            intro s hs
            cases hs
            have hab2 : a ≤ b := hchain.1
            have hbc : b ≤ c.1 := hchain.2.1
            simp only [List.headD_cons]
            omega
          · match hadd : rangesAdd capacity rs0 (start.getD a, b) with
            | .error e => rw [hadd] at h; cases h
            | .ok rs2 =>
              rw [hadd] at h
              exact ih none rs2 rs hchain2 (by simp) h ab hab

theorem foldlM_rangesAdd_length (capacity : Nat) (hc : capacity ≠ 0) :
    ∀ (l : List (Nat × Nat)) (acc out : List (Nat × Nat)), acc.length ≤ capacity →
    List.foldlM (rangesAdd capacity) acc l = .ok out → out.length ≤ capacity := by
  intro l
  induction l with
  | nil => intro acc out hlen h; cases h; exact hlen
  | cons r rest ih =>
    intro acc out hlen h
    simp only [List.foldlM_cons] at h
    match hadd : rangesAdd capacity acc r with
    | .error e => rw [hadd] at h; cases h
    | .ok acc2 =>
      rw [hadd] at h
      refine ih acc2 out ?_ h
      simp only [rangesAdd] at hadd
      split at hadd
      · cases hadd
      · split at hadd
        · cases hadd
        · cases hadd
          rename_i hcap
          simp only [List.length_append, List.length_cons, List.length_nil]
          omega

end HilbertCurveCpp

namespace HilbertCurveCpp

theorem query_ok_cases (bits dim : Nat) (lo hi : List Nat) (maxRanges bufferSize : Int)
    (rs : List (Nat × Nat)) (h : query bits dim lo hi maxRanges bufferSize = .ok rs) :
    ∃ ranges, coalesce bits dim lo hi (if maxRanges = 0 then 0 else bufferSize).toNat none []
        (runs (((perimeterCells lo hi).map (index bits dim)).insertionSort (· ≤ ·))) = .ok ranges ∧
      ((ranges.length ≤ maxRanges.toNat ∧ rs = ranges) ∨
       (¬ranges.length ≤ maxRanges.toNat ∧
         ranges.foldlM (rangesAdd maxRanges.toNat) [] = .ok rs)) := by
  simp only [query, bind, Except.bind, pure, Except.pure] at h
  split at h
  · cases h
  · split at h
    · cases h
    · split at h
      · cases h
      · match hco : coalesce bits dim lo hi (if maxRanges = 0 then 0 else bufferSize).toNat none []
            (runs (((perimeterCells lo hi).map (index bits dim)).insertionSort (· ≤ ·))) with
        | .error e => rw [hco] at h; cases h
        | .ok ranges =>
          rw [hco] at h
          have h2 : (if ranges.length ≤ maxRanges.toNat then Except.ok ranges
              else ranges.foldlM (rangesAdd maxRanges.toNat) []) = .ok rs := h
          refine ⟨ranges, rfl, ?_⟩
          split at h2
          · cases h2
            exact Or.inl ⟨by assumption, rfl⟩
          · exact Or.inr ⟨by assumption, h2⟩

end HilbertCurveCpp

/-- C5 amended: when query of src/src/rtree_hilbert/hilbert_curve.cpp
returns normally, the union of the returned ranges contains the index of
every box point visited by Box::visit_perimiter (every perimeter point of
the box), and for max_ranges positive the returned list holds at most
max_ranges ranges.  Coverage of interior box points is not guaranteed,
and when coalescing produces more than max_ranges positive ranges the
call throws from Ranges::add instead of returning a truncated list. -/
theorem C5_query_perimeter_coverage (bits dim : Nat) (lo hi : List Nat)
    (maxRanges bufferSize : Int) (rs : List (Nat × Nat))
    (h : HilbertCurveCpp.query bits dim lo hi maxRanges bufferSize = .ok rs) :
    (∀ p ∈ HilbertCurveCpp.perimeterCells lo hi,
      HilbertCurveCpp.inRanges rs (HilbertCurveCpp.index bits dim p) = true) ∧
    (0 < maxRanges → rs.length ≤ maxRanges.toNat) := by
  rcases HilbertCurveCpp.query_ok_cases bits dim lo hi maxRanges bufferSize rs h with
    ⟨ranges, hco, hcase⟩
  constructor
  · intro p hp
    set l := ((HilbertCurveCpp.perimeterCells lo hi).map
      (HilbertCurveCpp.index bits dim)).insertionSort (· ≤ ·) with hl
    have hmem : HilbertCurveCpp.index bits dim p ∈ l := by
      rw [hl]
      rw [(List.perm_insertionSort _ _).mem_iff]
      exact List.mem_map_of_mem _ hp
    have hsorted : l.Sorted (· ≤ ·) := List.sorted_insertionSort _ _
    rcases HilbertCurveCpp.runs_cover l _ hmem with ⟨ab, hab, h1, h2⟩
    have hchain := HilbertCurveCpp.runs_chain l hsorted
    rcases HilbertCurveCpp.coalesce_covers bits dim lo hi _ _ none [] ranges hchain
      (by simp) hco ab hab with ⟨uv, huv, h3, h4⟩
    have hmem2 : uv ∈ rs := by
      rcases hcase with ⟨_, rfl⟩ | ⟨_, hfold⟩
      · exact huv
      · -- members of ranges survive the copy into the limited container
        clear hco
        revert huv
        have : ∀ (l2 : List (Nat × Nat)) (acc out : List (Nat × Nat)),
            List.foldlM (HilbertCurveCpp.rangesAdd maxRanges.toNat) acc l2 = .ok out →
            ∀ r, r ∈ l2 ∨ r ∈ acc → r ∈ out := by
          intro l2
          induction l2 with
          | nil =>
            intro acc out hf r hr
            cases hf
            rcases hr with hr | hr
            · cases hr
            · exact hr
          | cons q rest ih =>
            intro acc out hf r hr
            simp only [List.foldlM_cons] at hf
            match hadd : HilbertCurveCpp.rangesAdd maxRanges.toNat acc q with
            | .error e => rw [hadd] at hf; cases hf
            | .ok acc2 =>
              rw [hadd] at hf
              rcases hr with hr | hr
              · rcases List.mem_cons.mp hr with hr | hr
                · subst hr
                  exact ih acc2 out hf r (Or.inr (HilbertCurveCpp.rangesAdd_ok_mem _ _ _ _ hadd).1)
                · exact ih acc2 out hf r (Or.inl hr)
              · exact ih acc2 out hf r
                  (Or.inr ((HilbertCurveCpp.rangesAdd_ok_mem _ _ _ _ hadd).2 r hr))
        intro huv
        exact this ranges [] rs hfold uv (Or.inl huv)
    simp only [HilbertCurveCpp.inRanges, List.any_eq_true]
    exact ⟨uv, hmem2, by simp; omega⟩
  · intro hpos
    rcases hcase with ⟨hlen, rfl⟩ | ⟨hlen, hfold⟩
    · exact hlen
    · have hc : maxRanges.toNat ≠ 0 := by omega
      exact HilbertCurveCpp.foldlM_rangesAdd_length maxRanges.toNat hc ranges [] rs
        (by simp) hfold

/-- Witness for C5 amended at a concrete input: the 2 by 2 box at the
origin of the bits = 2, dim = 2 curve with unlimited max_ranges. -/
theorem C5_query_perimeter_coverage_witness :
    HilbertCurveCpp.query 2 2 [0, 0] [1, 1] 0 1024 = .ok [(0, 3)] ∧
    ((∀ p ∈ HilbertCurveCpp.perimeterCells [0, 0] [1, 1],
      HilbertCurveCpp.inRanges [(0, 3)] (HilbertCurveCpp.index 2 2 p) = true) ∧
     (0 < (0 : Int) → ([(0, 3)] : List (Nat × Nat)).length ≤ (0 : Int).toNat)) := by
  have h : HilbertCurveCpp.query 2 2 [0, 0] [1, 1] 0 1024 = .ok [(0, 3)] := by rfl
  exact ⟨h, C5_query_perimeter_coverage 2 2 [0, 0] [1, 1] 0 1024 [(0, 3)] h⟩

namespace HilbertRTree

theorem except_bind_ok {α β γ : Type} (a : β) (f : β → Except α γ) :
    (Except.ok a >>= f : Except α γ) = f a := rfl

theorem except_pure_eq {α β : Type} (a : β) : (pure a : Except α β) = Except.ok a := rfl

set_option maxRecDepth 40000 in
/-- C3: the claim asserts that after every sequence of public operations
every non-root node holds between m and M entries.  On the tree
new(1, 2, 2, 2) the sequence insert sq 0, insert sq 1, insert sq 2,
remove sq 2 leaves node 4 reachable under root 7 with zero entries,
below the minimum of 1: the fill invariant is violated. -/
theorem C3_fill_invariant_violated :
    new 1 2 2 2 = Except.ok treeS ∧
    runOps treeS [Op.ins (sq 0) 0, Op.ins (sq 1) 1, Op.ins (sq 2) 2, Op.rem (sq 2)] =
      Except.ok d3s4 ∧
    checkFill d3s4 = false ∧
    d3s4.root = some 7 ∧ (4, 1) ∈ reach d3s4 ∧
    d3s4.getNode 4 = some ⟨true, some 7, some 0, none, [], ⟨[2, 2], [3, 3]⟩, 11⟩ ∧
    0 < d3s4.minE := by
  have h1 : insert treeS (sq 0) 0 = Except.ok d3s1 := by decide
  have h2 : insert d3s1 (sq 1) 1 = Except.ok d3s2 := by decide
  have h3 : insert d3s2 (sq 2) 2 = Except.ok d3s3 := by decide
  have h4 : remove d3s3 (sq 2) = Except.ok d3s4 := by decide
  refine ⟨by decide, ?_, by decide, by decide, by decide, by decide, by decide⟩
  simp only [runOps, h1, h2, h3, h4, except_bind_ok]

/-- C10: the Rectangle constructor of the hilbert variant moves from its
parameter vectors before comparing their sizes, so the comparison always
reads two emptied vectors and the dimension mismatch error can never be
raised, for unequal lengths in particular. -/
theorem C10_rectangle_ctor_never_throws (lo hi : List Int)
    (hne : lo.length ≠ hi.length) :
    mkRectangle lo hi = Except.ok ⟨lo, hi⟩ := rfl

/-- Witness for C10 at a concrete input of unequal dimensions. -/
theorem C10_rectangle_ctor_never_throws_witness :
    ([0] : List Int).length ≠ ([] : List Int).length ∧
    mkRectangle [0] [] = Except.ok ⟨[0], []⟩ :=
  ⟨by decide, C10_rectangle_ctor_never_throws [0] [] (by decide)⟩

/-- C6 counterexample: both constructors kept under src/src accept
m = 3, M = 4 although 3 exceeds 4 / 2; only the RTreeGutman revision of
src/unnamed/part_001 performs the claimed check. -/
theorem C6_counterexample :
    GutmanRTree.GutmanNew 3 4 = Except.ok ⟨none, 3, 4, 0⟩ ∧
    HilbertRTree.new 3 4 2 8 = Except.ok ⟨[], 0, none, 3, 4, 8, 2⟩ ∧
    (3 : Int) > (4 : Int).tdiv 2 :=
  ⟨rfl, by decide, by decide⟩

/-- C6 amended: the constructor of Gutman::RTree performs no check at
all; the hilbert constructor fails exactly when bits or dims is below 1
and never inspects min and max; the check m at most M / 2 exists only in
the RTreeGutman revision of src/unnamed/part_001. -/
theorem C6_ctor_validation :
    (∀ m M : Int, GutmanRTree.GutmanNew m M = Except.ok ⟨none, m, M, 0⟩) ∧
    (∀ mn mx dims bits : Int, 1 ≤ bits → 1 ≤ dims →
      HilbertRTree.new mn mx dims bits =
        Except.ok ⟨[], 0, none, mn.toNat, mx.toNat, bits.toNat, dims.toNat⟩) ∧
    (∀ mn mx dims bits : Int, bits < 1 ∨ dims < 1 →
      HilbertRTree.new mn mx dims bits = Except.error HErr.dimMismatch) ∧
    (∀ m M : Int, m > M.tdiv 2 →
      RTreeGutmanV1.RTreeGutmanNew m M = Except.error RTreeGutmanV1.GErr.lengthError) ∧
    (∀ m M : Int, m ≤ M.tdiv 2 →
      RTreeGutmanV1.RTreeGutmanNew m M = Except.ok ⟨none, m, M⟩) := by
  refine ⟨fun m M => rfl, ?_, ?_, ?_, ?_⟩
  · intro mn mx dims bits hb hd
    simp only [HilbertRTree.new]
    rw [if_neg (by omega)]
  · intro mn mx dims bits hor
    simp only [HilbertRTree.new]
    rw [if_pos hor]
  · intro m M hgt
    simp only [RTreeGutmanV1.RTreeGutmanNew]
    rw [if_pos hgt]
  · intro m M hle
    simp only [RTreeGutmanV1.RTreeGutmanNew]
    rw [if_neg (by omega)]

/-- Witness for C6 amended: each guarded case at a concrete input. -/
theorem C6_ctor_validation_witness :
    HilbertRTree.new 1 2 2 2 = Except.ok ⟨[], 0, none, 1, 2, 2, 2⟩ ∧
    HilbertRTree.new 3 4 2 (-1) = Except.error HErr.dimMismatch ∧
    RTreeGutmanV1.RTreeGutmanNew 3 4 = Except.error RTreeGutmanV1.GErr.lengthError ∧
    RTreeGutmanV1.RTreeGutmanNew 2 4 = Except.ok ⟨none, 2, 4⟩ :=
  ⟨C6_ctor_validation.2.1 1 2 2 2 (by decide) (by decide),
   C6_ctor_validation.2.2.1 3 4 2 (-1) (Or.inl (by decide)),
   C6_ctor_validation.2.2.2.1 3 4 (by decide),
   C6_ctor_validation.2.2.2.2 2 4 (by decide)⟩

end HilbertRTree

namespace HilbertRTree

theorem firstGE_eq_find (s : HState) (hv : Int) :
    ∀ l : List Entry, (∀ e ∈ l, lhvOk s e = true) →
      firstGE s hv l = Except.ok (l.find? (specGE s hv)) := by
  intro l
  induction l with
  | nil => intro _; rfl
  | cons e rest ih =>
    intro hall
    have he : lhvOk s e = true := hall e (List.mem_cons_self e rest)
    cases hlv : entryLhv s e with
    | error err => simp only [lhvOk, hlv] at he; exact Bool.noConfusion he
    | ok k =>
      simp only [firstGE, hlv]
      by_cases hk : k ≥ hv
      · rw [if_pos hk]
        have hsg : specGE s hv e = true := by
          simp only [specGE, hlv]; simpa using hk
        rw [List.find?_cons_of_pos _ hsg]
      · rw [if_neg hk]
        have hsg : specGE s hv e = false := by
          simp only [specGE, hlv]; simpa using hk
        rw [List.find?_cons_of_neg _ (by simp [hsg])]
        exact ih (fun x hx => hall x (List.mem_cons_of_mem e hx))

theorem getD_length_sub_one {α : Type} (d : α) :
    ∀ l : List α, l ≠ [] → some (l.getD (l.length - 1) d) = l.getLast? := by
  intro l
  induction l with
  | nil => intro h; exact absurd rfl h
  | cons x rest ih =>
    intro _
    cases rest with
    | nil => rfl
    | cons y t =>
      rw [List.getLast?_cons_cons]
      have := ih (by simp)
      simpa using this

set_option maxRecDepth 4000 in
/-- C9 amended: the claim says the choose-leaf descent enters the first
child in entry order whose lhv is at least h, and the last child when
none qualifies.  That holds for hilbert::RTree::choose_leaf of
hilbert_rtree.h, proved here: one descent step from a live internal node
whose entry lhvs all evaluate equals a recursive call on the child of
exactly that entry, where specChooseChild states the spec selection.
The RTreeHilbertKamelFaloutsos revision of rtree.h instead selects by
minimum mbr enlargement among the children with LHV at least h (see the
counterexample). -/
theorem C9_choose_leaf_first_ge (s : HState) (fuel nid : Nat) (hv : Int)
    (n : NodeR) (w cid : Nat)
    (hn : s.getNode nid = some n) (hleaf : n.leaf = false)
    (hok : n.entries.all (lhvOk s) = true)
    (hspec : specChooseChild s n hv = some (Entry.innerE w cid)) :
    chooseLeaf s (fuel + 1) nid hv = chooseLeaf s fuel cid hv := by
  have hall : ∀ e ∈ n.entries, lhvOk s e = true := by
    intro e he; exact List.all_eq_true.mp hok e he
  have hfind := firstGE_eq_find s hv n.entries hall
  simp only [specChooseChild] at hspec
  cases hf : n.entries.find? (specGE s hv) with
  | some e =>
    simp only [hf] at hspec
    have he : e = Entry.innerE w cid := by injection hspec
    subst he
    simp only [chooseLeaf, getN, hn, except_bind_ok, hleaf, Bool.false_eq_true,
      if_false, hfind, hf]
    rfl
  | none =>
    simp only [hf] at hspec
    have hne : n.entries ≠ [] := by
      intro h0; rw [h0] at hspec; simp at hspec
    have hgd : some (n.entries.getD (n.entries.length - 1) (Entry.innerE 0 0)) =
        n.entries.getLast? := getD_length_sub_one _ n.entries hne
    rw [hspec] at hgd
    have hgd2 : n.entries.getD (n.entries.length - 1) (Entry.innerE 0 0) =
        Entry.innerE w cid := by injection hgd
    have hisEmpty : n.entries.isEmpty = false := by
      cases hE : n.entries with
      | nil => exact absurd hE hne
      | cons a t => rfl
    simp only [chooseLeaf, getN, hn, except_bind_ok, hleaf, Bool.false_eq_true,
      if_false, hfind, hf, hisEmpty, hgd2]
    rfl

/-- Witness for C9 at the split tree d3s3: from root 7 with h = 1 the
descent enters child 0, the first entry with lhv at least 1. -/
theorem C9_choose_leaf_first_ge_witness :
    chooseLeaf d3s3 2 7 1 = chooseLeaf d3s3 1 0 1 ∧
    chooseLeaf d3s3 1 0 1 = Except.ok 0 :=
  ⟨C9_choose_leaf_first_ge d3s3 1 7 1
      ⟨false, none, none, none, [Entry.innerE 5 0, Entry.innerE 6 4],
        ⟨[0, 0], [3, 3]⟩, 11⟩ 5 0
      (by decide) rfl (by decide) (by decide),
   by decide⟩

theorem getNode_mem (s : HState) (i : Nat) (n : NodeR)
    (h : s.getNode i = some n) : (i, n) ∈ s.nodes := by
  unfold HState.getNode at h
  cases hf : s.nodes.find? (fun p => p.1 = i) with
  | none => rw [hf] at h; exact Option.noConfusion h
  | some pr =>
    rw [hf] at h
    have hmem := List.mem_of_find?_eq_some hf
    have hpred := List.find?_some hf
    have h1 : pr.1 = i := by simpa using hpred
    have h2 : pr.2 = n := by injection h
    have hpr : pr = (i, n) := by
      cases pr with
      | mk a b => simp only at h1 h2; rw [h1, h2]
    rw [hpr] at hmem
    exact hmem

theorem liveNode_some (s : HState) (i : Nat) (h : s.liveNode i = true) :
    ∃ n, s.getNode i = some n := by
  unfold HState.liveNode at h
  unfold HState.getNode
  cases hf : s.nodes.find? (fun p => p.1 = i) with
  | none => rw [hf] at h; exact Bool.noConfusion h
  | some pr => exact ⟨pr.2, rfl⟩

theorem containsR_ok (a b : Rect) (hlen : a.lower.length = b.lower.length) :
    Rect.containsR a b = Except.ok (rectContainsB a b) := by
  unfold Rect.containsR
  rw [if_neg (by rw [hlen]; exact fun hc => hc rfl)]

theorem eqR_ok (a b : Rect) (hlen : a.lower.length = b.lower.length) :
    Rect.eqR a b = Except.ok (rectEqB a b) := by
  unfold Rect.eqR
  rw [if_neg (by rw [hlen]; exact fun hc => hc rfl)]

theorem leafFind_absent (s : HState) (r : Rect) :
    ∀ l : List Entry,
      (∀ e ∈ l, ∃ le, e = Entry.leafE le ∧ r.lower.length = le.rect.lower.length ∧
        rectEqB r le.rect = false) →
      leafFind s r l = Except.ok false := by
  intro l
  induction l with
  | nil => intro _; rfl
  | cons e rest ih =>
    intro hall
    have htail : leafFind s r rest = Except.ok false :=
      ih (fun x hx => hall x (List.mem_cons_of_mem e hx))
    obtain ⟨le, hle, hlen, hne⟩ := hall e (List.mem_cons_self e rest)
    subst hle
    have heq := eqR_ok r le.rect hlen
    simp only [leafFind, entryMbr, heq, hne]
    exact htail

theorem exactSearchGo_none (s : HState) (r : Rect)
    (recur : Nat → Except HErr (Option Nat)) :
    ∀ l : List Entry,
      (∀ e ∈ l, (∃ le, e = Entry.leafE le ∧ le.rect.lower.length = r.lower.length) ∨
        (∃ w cid n2, e = Entry.innerE w cid ∧ s.getNode cid = some n2 ∧
          n2.mbr.lower.length = r.lower.length ∧ recur cid = Except.ok none)) →
      exactSearchGo s r recur l = Except.ok none := by
  intro l
  induction l with
  | nil => intro _; rfl
  | cons e rest ih =>
    intro hall
    have htail : exactSearchGo s r recur rest = Except.ok none :=
      ih (fun x hx => hall x (List.mem_cons_of_mem e hx))
    rcases hall e (List.mem_cons_self e rest) with
      ⟨le, hle, hlen⟩ | ⟨w, cid, n2, hee, hgn, hlen, hrec⟩
    · subst hle
      have hc := containsR_ok le.rect r hlen
      simp only [exactSearchGo, entryMbr, except_pure_eq, hc]
      cases hb : rectContainsB le.rect r
      · exact htail
      · exact htail
    · subst hee
      have hc := containsR_ok n2.mbr r hlen
      simp only [exactSearchGo, entryMbr, getN, hgn, except_bind_ok, except_pure_eq, hc]
      cases hb : rectContainsB n2.mbr r
      · exact htail
      · simp only [hrec]
        exact htail

theorem nodeWf_facts (s : HState) (r : Rect) (nid : Nat) (n : NodeR)
    (hwf : s.nodes.all (nodeWf s r) = true) (hg : s.getNode nid = some n) :
    n.mbr.lower.length = s.dim ∧
    (n.leaf = true → ∀ e ∈ n.entries, Entry.isLeafEntry e = true) ∧
    (∀ e ∈ n.entries, (∃ le, e = Entry.leafE le ∧ le.rect.lower.length = s.dim ∧
      rectEqB r le.rect = false) ∨
      (∃ w cid, e = Entry.innerE w cid ∧ s.liveNode cid = true)) := by
  have hmem := getNode_mem s nid n hg
  have hw := List.all_eq_true.mp hwf (nid, n) hmem
  simp only [nodeWf, Bool.and_eq_true, decide_eq_true_eq] at hw
  obtain ⟨⟨hlen, hleafE⟩, hents⟩ := hw
  refine ⟨hlen, ?_, ?_⟩
  · intro hl e he
    rw [hl] at hleafE
    simp only [Bool.not_true, Bool.false_or] at hleafE
    exact List.all_eq_true.mp hleafE e he
  · intro e he
    have hthis := List.all_eq_true.mp hents e he
    cases e with
    | leafE le =>
      simp only [Bool.and_eq_true, decide_eq_true_eq, Bool.not_eq_eq_eq_not,
        Bool.not_true] at hthis
      exact Or.inl ⟨le, rfl, hthis.1, by simpa using hthis.2⟩
    | innerE w cid => exact Or.inr ⟨w, cid, rfl, by simpa using hthis⟩

theorem exactSearch_absent (s : HState) (r : Rect)
    (hd : r.lower.length = s.dim) (hwf : s.nodes.all (nodeWf s r) = true) :
    ∀ fuel nid, depthCheck s fuel nid = true →
      exactSearch s fuel nid r = Except.ok none := by
  intro fuel
  induction fuel with
  | zero => intro nid hdc; simp [depthCheck] at hdc
  | succ fuel ih =>
    intro nid hdc
    cases hl : s.liveNode nid with
    | false => simp only [exactSearch, hl]; rfl
    | true =>
      obtain ⟨n, hg⟩ := liveNode_some s nid hl
      obtain ⟨hlen, hleafE, hents⟩ := nodeWf_facts s r nid n hwf hg
      have hdc2 : n.entries.all (fun e => match e with
          | .innerE _ cid => depthCheck s fuel cid
          | .leafE _ => true) = true := by
        simp only [depthCheck, hg] at hdc
        exact hdc
      simp only [exactSearch, hl, getN, hg, except_bind_ok]
      cases hnl : n.leaf with
      | true =>
        have hlf : leafFind s r n.entries = Except.ok false := by
          refine leafFind_absent s r n.entries ?_
          intro e he
          rcases hents e he with ⟨le, hle, h1, h2⟩ | ⟨w, cid, hee, _⟩
          · exact ⟨le, hle, by rw [hd, h1], h2⟩
          · exfalso
            have hbad := hleafE hnl e he
            rw [hee] at hbad
            exact Bool.noConfusion hbad
        simp only [hnl, hlf, except_bind_ok]
        rfl
      | false =>
        have hgo : exactSearchGo s r (fun cid => exactSearch s fuel cid r) n.entries =
            Except.ok none := by
          refine exactSearchGo_none s r _ n.entries ?_
          intro e he
          rcases hents e he with ⟨le, hle, h1, _⟩ | ⟨w, cid, hee, hlive⟩
          · exact Or.inl ⟨le, hle, by rw [h1, hd]⟩
          · obtain ⟨n2, hg2⟩ := liveNode_some s cid hlive
            obtain ⟨hlen2, _, _⟩ := nodeWf_facts s r cid n2 hwf hg2
            have hdcc : depthCheck s fuel cid = true := by
              have hstep := List.all_eq_true.mp hdc2 e he
              rw [hee] at hstep
              simpa using hstep
            exact Or.inr ⟨w, cid, n2, hee, hg2, by rw [hlen2, hd], ih cid hdcc⟩
        exact hgo

set_option maxRecDepth 4000 in
/-- C8 amended: the claim says a remove of a rectangle no stored entry
equals returns normally and leaves the tree unchanged.  That holds only
when the rectangle has the tree dimension (otherwise operator== throws,
see the counterexample); under removeAbsentWf, which states the
dimension agreement, the absence of an equal entry and the structural
facts of the arena, remove returns the state unchanged. -/
theorem C8_remove_absent_noop (s : HState) (r : Rect)
    (hwf : removeAbsentWf s r = true) : remove s r = Except.ok s := by
  simp only [removeAbsentWf, Bool.and_eq_true, decide_eq_true_eq] at hwf
  obtain ⟨⟨hd, hnodes⟩, hroot⟩ := hwf
  cases hr : s.root with
  | none => simp only [remove, hr]; rfl
  | some root =>
    rw [hr] at hroot
    have hx : exactSearch s 100 root r = Except.ok none :=
      exactSearch_absent s r hd hnodes 100 root hroot
    simp only [remove, hr, hx, except_bind_ok]
    rfl

/-- C8 counterexample: on a tree holding one 2-dimensional entry, remove
of a 3-dimensional rectangle, which no stored entry equals, throws the
dimension mismatch error of operator== instead of returning normally. -/
theorem C8_counterexample :
    remove d3s1 ⟨[0, 0, 0], [1, 1, 1]⟩ = Except.error HErr.dimMismatch ∧
    (allEntries d3s1).all
      (fun p => decide (p.1 ≠ (⟨[0, 0, 0], [1, 1, 1]⟩ : Rect))) = true := by
  exact ⟨by decide, by decide⟩

/-- Witness for C8 amended: remove of the absent square sq 5 from the
two-entry tree d3s2 returns d3s2 unchanged. -/
theorem C8_remove_absent_noop_witness :
    removeAbsentWf d3s2 (sq 5) = true ∧ remove d3s2 (sq 5) = Except.ok d3s2 :=
  ⟨by decide, C8_remove_absent_noop d3s2 (sq 5) (by decide)⟩

theorem find_set_self (i : Nat) (n : NodeR) :
    ∀ l : List (Nat × NodeR), (l.find? (fun p => p.1 = i)).isSome = true →
      (l.map (fun p => if p.1 = i then (i, n) else p)).find? (fun p => p.1 = i) =
        some (i, n) := by
  intro l
  induction l with
  | nil => intro h; exact Bool.noConfusion h
  | cons p rest ih =>
    intro h
    by_cases hp : p.1 = i
    · simp only [List.map_cons, if_pos hp]
      rw [List.find?_cons_of_pos _ (by simp)]
    · simp only [List.map_cons, if_neg hp]
      rw [List.find?_cons_of_neg _ (by simpa using hp)]
      apply ih
      rw [List.find?_cons_of_neg _ (by simpa using hp)] at h
      exact h

theorem find_append_self (i : Nat) (n : NodeR) :
    ∀ l : List (Nat × NodeR), l.find? (fun p => p.1 = i) = none →
      (l ++ [(i, n)]).find? (fun p => p.1 = i) = some (i, n) := by
  intro l
  induction l with
  | nil =>
    intro _
    rw [List.nil_append]
    rw [List.find?_cons_of_pos _ (by simp)]
  | cons p rest ih =>
    intro h
    by_cases hp : p.1 = i
    · rw [List.find?_cons_of_pos _ (by simpa using hp)] at h
      exact Option.noConfusion h
    · rw [List.cons_append, List.find?_cons_of_neg _ (by simpa using hp)]
      apply ih
      rw [List.find?_cons_of_neg _ (by simpa using hp)] at h
      exact h

theorem getNode_setNode_self (s : HState) (i : Nat) (n : NodeR) :
    (s.setNode i n).getNode i = some n := by
  by_cases h : (s.nodes.find? (fun p => p.1 = i)).isSome = true
  · have h2 := find_set_self i n s.nodes h
    simp [HState.setNode, HState.getNode, h, h2]
  · have hnone : s.nodes.find? (fun p => p.1 = i) = none := by
      cases hf : s.nodes.find? (fun p => p.1 = i) with
      | none => rfl
      | some pr => rw [hf] at h; exact absurd rfl h
    have h2 := find_append_self i n s.nodes hnone
    simp [HState.setNode, HState.getNode, h, h2]

theorem insertSortedGo_ok (s : HState) (e : Entry) (k : Int) :
    ∀ l : List Entry,
      (∀ e2 ∈ l, Entry.isLeafEntry e2 = true ∧ e2.id ≠ e.id) →
      ∃ l2, insertSortedGo s e k l = Except.ok l2 ∧ e ∈ l2 ∧
        ∀ x ∈ l2, x = e ∨ x ∈ l := by
  intro l
  induction l with
  | nil =>
    intro _
    refine ⟨[e], rfl, List.mem_cons_self e [], ?_⟩
    intro x hx
    rcases List.mem_cons.mp hx with hx1 | hx2
    · exact Or.inl hx1
    · exact absurd hx2 (List.not_mem_nil x)
  | cons e2 rest ih =>
    intro hall
    obtain ⟨hleafE2, hne2⟩ := hall e2 (List.mem_cons_self e2 rest)
    obtain ⟨le2, hle2⟩ : ∃ le, e2 = Entry.leafE le := by
      cases e2 with
      | leafE le => exact ⟨le, rfl⟩
      | innerE a b => exact Bool.noConfusion hleafE2
    obtain ⟨l2, hgo, hmem, hsub⟩ := ih (fun x hx => hall x (List.mem_cons_of_mem e2 hx))
    subst hle2
    simp only [insertSortedGo, entryLhv]
    rw [if_neg hne2]
    by_cases hcmp : k < le2.lhv ∨ (k = le2.lhv ∧ e.id < (Entry.leafE le2).id)
    · rw [if_pos hcmp]
      refine ⟨e :: Entry.leafE le2 :: rest, rfl, List.mem_cons_self _ _, ?_⟩
      intro x hx
      rcases List.mem_cons.mp hx with hx1 | hx2
      · exact Or.inl hx1
      · exact Or.inr hx2
    · rw [if_neg hcmp, hgo]
      refine ⟨Entry.leafE le2 :: l2, rfl, List.mem_cons_of_mem _ hmem, ?_⟩
      intro x hx
      rcases List.mem_cons.mp hx with hx1 | hx2
      · exact Or.inr (hx1 ▸ List.mem_cons_self _ _)
      · rcases hsub x hx2 with hs1 | hs2
        · exact Or.inl hs1
        · exact Or.inr (List.mem_cons_of_mem _ hs2)

theorem maxLhv_ok (s : HState) :
    ∀ l : List Entry, (∀ e ∈ l, lhvOk s e = true) →
      ∀ m : Int, ∃ v, maxLhv s l m = Except.ok v := by
  intro l
  induction l with
  | nil => intro _ m; exact ⟨m, rfl⟩
  | cons e rest ih =>
    intro hall m
    have he := hall e (List.mem_cons_self e rest)
    cases hlv : entryLhv s e with
    | error err => simp only [lhvOk, hlv] at he; exact Bool.noConfusion he
    | ok k =>
      obtain ⟨v, hv⟩ := ih (fun x hx => hall x (List.mem_cons_of_mem e hx))
        (if k > m then k else m)
      refine ⟨v, ?_⟩
      simp only [maxLhv, hlv, except_bind_ok]
      exact hv

theorem adjustLhvOf_ok (s : HState) (n : NodeR)
    (h : ∀ e ∈ n.entries, lhvOk s e = true) :
    ∃ v, adjustLhvOf s n = Except.ok { n with lhv := v } := by
  obtain ⟨v, hv⟩ := maxLhv_ok s n.entries h INT64MIN
  refine ⟨v, ?_⟩
  simp only [adjustLhvOf, hv, except_bind_ok, except_pure_eq]

theorem mbrFold_ok (s : HState) (dims : Nat) :
    ∀ l : List Entry,
      (∀ e ∈ l, ∃ r, entryMbr s e = Except.ok r ∧ dims ≤ r.lower.length ∧
        dims ≤ r.higher.length) →
      ∀ lo hi, ∃ out, mbrFold s dims l lo hi = Except.ok out := by
  intro l
  induction l with
  | nil => intro _ lo hi; exact ⟨(lo, hi), rfl⟩
  | cons e rest ih =>
    intro hall lo hi
    obtain ⟨r, hr, h1, h2⟩ := hall e (List.mem_cons_self e rest)
    obtain ⟨out, hout⟩ := ih (fun x hx => hall x (List.mem_cons_of_mem e hx))
      ((List.range dims).map (fun i => min (lo.getD i 0) (r.lower.getD i 0)))
      ((List.range dims).map (fun i => max (hi.getD i 0) (r.higher.getD i 0)))
    refine ⟨out, ?_⟩
    simp only [mbrFold, hr]
    rw [if_neg (by omega)]
    exact hout

theorem adjustMbrOf_ok (s : HState) (n : NodeR)
    (h : ∀ e ∈ n.entries, ∃ r, entryMbr s e = Except.ok r ∧ s.dim ≤ r.lower.length ∧
      s.dim ≤ r.higher.length) :
    ∃ m, adjustMbrOf s n = Except.ok { n with mbr := m } := by
  cases hE : n.entries.isEmpty with
  | true =>
    refine ⟨⟨List.replicate s.dim 0, List.replicate s.dim 0⟩, ?_⟩
    simp only [adjustMbrOf, hE]
    rfl
  | false =>
    obtain ⟨out, hout⟩ := mbrFold_ok s s.dim n.entries h
      (List.replicate s.dim ((2 : Int) ^ 63 - 1)) (List.replicate s.dim INT64MIN)
    refine ⟨⟨out.1, out.2⟩, ?_⟩
    simp only [adjustMbrOf, hE, hout, except_bind_ok, except_pure_eq]
    rfl

theorem setNode_dim (s : HState) (i : Nat) (n : NodeR) :
    (s.setNode i n).dim = s.dim := by
  unfold HState.setNode
  split <;> rfl

theorem chooseLeaf_leaf (s : HState) (fuel nid : Nat) (hv : Int) (n : NodeR)
    (hg : s.getNode nid = some n) (hl : n.leaf = true) :
    chooseLeaf s (fuel + 1) nid hv = Except.ok nid := by
  simp only [chooseLeaf, getN, hg, except_bind_ok, hl]
  rfl

theorem adjustTreeLoop_root (s sA sB : HState) (fuel rt N : Nat) (S : List Nat)
    (n : NodeR) (hg : s.getNode N = some n) (hp : n.parent = none)
    (h1 : modifyN s rt (adjustLhvOf s) = Except.ok sA)
    (h2 : modifyN sA rt (adjustMbrOf sA) = Except.ok sB) :
    adjustTreeLoop s (fuel + 1) rt N none S = Except.ok (rt, sB) := by
  simp only [adjustTreeLoop, getN, hg, except_bind_ok, hp, h1, h2, except_pure_eq]

theorem reachAux_succ (s : HState) (fuel nid depth : Nat) (n : NodeR)
    (hg : s.getNode nid = some n) :
    reachAux s (fuel + 1) nid depth = (nid, depth) :: (n.entries.flatMap (fun e =>
      match e with
      | .innerE _ cid => reachAux s fuel cid (depth + 1)
      | .leafE _ => [])) := by
  simp only [reachAux, hg]

set_option maxRecDepth 4000 in
/-- C7 amended: the hilbert insert performs no dimensionality check.
Into a tree whose root is a live leaf with room, whose stored entries are
leaf entries of the tree dimension with ids below the allocation counter,
an insert of a rectangle of a different dimensionality (at least the tree
dimension) succeeds and stores the entry, instead of failing with a
dimension mismatch. -/
theorem C7_insert_no_dim_check (s : HState) (r : Rect) (elem rid : Nat) (n : NodeR)
    (hroot : s.root = some rid)
    (hn : s.getNode rid = some n)
    (hleaf : n.leaf = true)
    (hparent : n.parent = none)
    (hroom : n.entries.length < s.maxE)
    (hes : n.entries.all (fun e => match e with
      | .leafE le => decide (s.dim ≤ le.rect.lower.length) &&
          decide (s.dim ≤ le.rect.higher.length) && decide (le.id ≠ s.nextId)
      | .innerE _ _ => false) = true)
    (hlo : s.dim ≤ r.lower.length) (hhi : s.dim ≤ r.higher.length)
    (hdiff : r.lower.length ≠ s.dim) :
    ∃ s2, insert s r elem = Except.ok s2 ∧ (r, elem) ∈ allEntries s2 := by
  have hfacts : ∀ e ∈ n.entries, ∃ le, e = Entry.leafE le ∧
      s.dim ≤ le.rect.lower.length ∧ s.dim ≤ le.rect.higher.length ∧
      le.id ≠ s.nextId := by
    intro e he
    have hthis := List.all_eq_true.mp hes e he
    cases e with
    | leafE le =>
      simp only [Bool.and_eq_true, decide_eq_true_eq] at hthis
      exact ⟨le, rfl, hthis.1.1, hthis.1.2, hthis.2⟩
    | innerE a b => exact Bool.noConfusion hthis
  have hn1 : ({ s with nextId := s.nextId + 1, root := some rid } : HState).getNode rid = some n := hn
  obtain ⟨l2, hgo, hl2mem, hl2sub⟩ :=
    insertSortedGo_ok ({ s with nextId := s.nextId + 1, root := some rid } : HState)
      (Entry.leafE ⟨s.nextId, r, curveIndex s.bits s.dim r.center, elem⟩)
      (curveIndex s.bits s.dim r.center) n.entries
      (by
        intro e2 he2
        obtain ⟨le, hle, _, _, hid⟩ := hfacts e2 he2
        subst hle
        exact ⟨rfl, by simpa using hid⟩)
  have hallLeaf : ∀ x ∈ l2, Entry.isLeafEntry x = true := by
    intro x hx
    rcases hl2sub x hx with hx1 | hx2
    · subst hx1; rfl
    · obtain ⟨le, hle, _⟩ := hfacts x hx2; subst hle; rfl
  have hallLhv : ∀ st : HState, ∀ x ∈ l2, lhvOk st x = true := by
    intro st x hx
    have hL := hallLeaf x hx
    cases x with
    | leafE le => rfl
    | innerE a b => exact Bool.noConfusion hL
  have hallMbr : ∀ st : HState, ∀ x ∈ l2, ∃ rr, entryMbr st x = Except.ok rr ∧
      s.dim ≤ rr.lower.length ∧ s.dim ≤ rr.higher.length := by
    intro st x hx
    rcases hl2sub x hx with hx1 | hx2
    · subst hx1; exact ⟨r, rfl, hlo, hhi⟩
    · obtain ⟨le, hle, hL1, hL2, _⟩ := hfacts x hx2
      subst hle
      exact ⟨le.rect, rfl, hL1, hL2⟩
  have hcl : chooseLeaf ({ s with nextId := s.nextId + 1, root := some rid } : HState) 100 rid
      (curveIndex s.bits s.dim r.center) = Except.ok rid :=
    chooseLeaf_leaf _ 99 rid _ n hn1 hleaf
  have hile : insertLeafEntry ({ s with nextId := s.nextId + 1, root := some rid } : HState) rid
      ⟨s.nextId, r, curveIndex s.bits s.dim r.center, elem⟩ =
      Except.ok (({ s with nextId := s.nextId + 1, root := some rid } : HState).setNode rid
        { n with entries := l2 }) := by
    simp only [insertLeafEntry, getN, hn1, except_bind_ok, hleaf, Bool.not_true,
      Bool.false_eq_true, if_false, insertSorted, entryLhv, hgo, except_pure_eq]
    rw [if_neg (by omega)]
  have hgB : (({ s with nextId := s.nextId + 1, root := some rid } : HState).setNode rid
      { n with entries := l2 }).getNode rid = some { n with entries := l2 } :=
    getNode_setNode_self _ rid _
  obtain ⟨v1, hv1⟩ := adjustLhvOf_ok
    (({ s with nextId := s.nextId + 1, root := some rid } : HState).setNode rid { n with entries := l2 })
    { n with entries := l2 } (fun e he => hallLhv _ e he)
  have hm1 : modifyN (({ s with nextId := s.nextId + 1, root := some rid } : HState).setNode rid
      { n with entries := l2 }) rid (adjustLhvOf
        (({ s with nextId := s.nextId + 1, root := some rid } : HState).setNode rid { n with entries := l2 })) =
      Except.ok ((({ s with nextId := s.nextId + 1, root := some rid } : HState).setNode rid
        { n with entries := l2 }).setNode rid { { n with entries := l2 } with lhv := v1 }) := by
    simp only [modifyN, getN, hgB, except_bind_ok, hv1, except_pure_eq]
  have hgC : ((({ s with nextId := s.nextId + 1, root := some rid } : HState).setNode rid { n with entries := l2 }).setNode rid { { n with entries := l2 } with lhv := v1 }).getNode rid = some { { n with entries := l2 } with lhv := v1 } :=
    getNode_setNode_self _ rid _
  obtain ⟨m2, hv2⟩ := adjustMbrOf_ok ((({ s with nextId := s.nextId + 1, root := some rid } : HState).setNode rid { n with entries := l2 }).setNode rid { { n with entries := l2 } with lhv := v1 })
    { { n with entries := l2 } with lhv := v1 } (by
    intro e he
    obtain ⟨rr, h1, h2, h3⟩ := hallMbr _ e he
    refine ⟨rr, h1, ?_, ?_⟩ <;> simp only [setNode_dim] <;> assumption)
  have hm2 : modifyN ((({ s with nextId := s.nextId + 1, root := some rid } : HState).setNode rid { n with entries := l2 }).setNode rid { { n with entries := l2 } with lhv := v1 }) rid (adjustMbrOf ((({ s with nextId := s.nextId + 1, root := some rid } : HState).setNode rid { n with entries := l2 }).setNode rid { { n with entries := l2 } with lhv := v1 })) =
      Except.ok (((({ s with nextId := s.nextId + 1, root := some rid } : HState).setNode rid { n with entries := l2 }).setNode rid { { n with entries := l2 } with lhv := v1 }).setNode rid { { { n with entries := l2 } with lhv := v1 } with mbr := m2 }) := by
    simp only [modifyN, getN, hgC, except_bind_ok, hv2, except_pure_eq]
  have hgD : (((({ s with nextId := s.nextId + 1, root := some rid } : HState).setNode rid { n with entries := l2 }).setNode rid { { n with entries := l2 } with lhv := v1 }).setNode rid { { { n with entries := l2 } with lhv := v1 } with mbr := m2 }).getNode rid = some { { { n with entries := l2 } with lhv := v1 } with mbr := m2 } :=
    getNode_setNode_self _ rid _
  have hpD : ({ { { n with entries := l2 } with lhv := v1 } with mbr := m2 } : NodeR).parent = none := hparent
  obtain ⟨v2, hv3⟩ := adjustLhvOf_ok (((({ s with nextId := s.nextId + 1, root := some rid } : HState).setNode rid { n with entries := l2 }).setNode rid { { n with entries := l2 } with lhv := v1 }).setNode rid { { { n with entries := l2 } with lhv := v1 } with mbr := m2 })
    { { { n with entries := l2 } with lhv := v1 } with mbr := m2 } (fun e he => hallLhv _ e he)
  have hm3 : modifyN (((({ s with nextId := s.nextId + 1, root := some rid } : HState).setNode rid { n with entries := l2 }).setNode rid { { n with entries := l2 } with lhv := v1 }).setNode rid { { { n with entries := l2 } with lhv := v1 } with mbr := m2 }) rid (adjustLhvOf (((({ s with nextId := s.nextId + 1, root := some rid } : HState).setNode rid { n with entries := l2 }).setNode rid { { n with entries := l2 } with lhv := v1 }).setNode rid { { { n with entries := l2 } with lhv := v1 } with mbr := m2 })) =
      Except.ok ((((({ s with nextId := s.nextId + 1, root := some rid } : HState).setNode rid { n with entries := l2 }).setNode rid { { n with entries := l2 } with lhv := v1 }).setNode rid { { { n with entries := l2 } with lhv := v1 } with mbr := m2 }).setNode rid { { { { n with entries := l2 } with lhv := v1 } with mbr := m2 } with lhv := v2 }) := by
    simp only [modifyN, getN, hgD, except_bind_ok, hv3, except_pure_eq]
  have hgE : ((((({ s with nextId := s.nextId + 1, root := some rid } : HState).setNode rid { n with entries := l2 }).setNode rid { { n with entries := l2 } with lhv := v1 }).setNode rid { { { n with entries := l2 } with lhv := v1 } with mbr := m2 }).setNode rid { { { { n with entries := l2 } with lhv := v1 } with mbr := m2 } with lhv := v2 }).getNode rid = some { { { { n with entries := l2 } with lhv := v1 } with mbr := m2 } with lhv := v2 } :=
    getNode_setNode_self _ rid _
  obtain ⟨m3, hv4⟩ := adjustMbrOf_ok ((((({ s with nextId := s.nextId + 1, root := some rid } : HState).setNode rid { n with entries := l2 }).setNode rid { { n with entries := l2 } with lhv := v1 }).setNode rid { { { n with entries := l2 } with lhv := v1 } with mbr := m2 }).setNode rid { { { { n with entries := l2 } with lhv := v1 } with mbr := m2 } with lhv := v2 })
    { { { { n with entries := l2 } with lhv := v1 } with mbr := m2 } with lhv := v2 } (by
    intro e he
    obtain ⟨rr, h1, h2, h3⟩ := hallMbr _ e he
    refine ⟨rr, h1, ?_, ?_⟩ <;> simp only [setNode_dim] <;> assumption)
  have hm4 : modifyN ((((({ s with nextId := s.nextId + 1, root := some rid } : HState).setNode rid { n with entries := l2 }).setNode rid { { n with entries := l2 } with lhv := v1 }).setNode rid { { { n with entries := l2 } with lhv := v1 } with mbr := m2 }).setNode rid { { { { n with entries := l2 } with lhv := v1 } with mbr := m2 } with lhv := v2 }) rid (adjustMbrOf ((((({ s with nextId := s.nextId + 1, root := some rid } : HState).setNode rid { n with entries := l2 }).setNode rid { { n with entries := l2 } with lhv := v1 }).setNode rid { { { n with entries := l2 } with lhv := v1 } with mbr := m2 }).setNode rid { { { { n with entries := l2 } with lhv := v1 } with mbr := m2 } with lhv := v2 })) =
      Except.ok (((((({ s with nextId := s.nextId + 1, root := some rid } : HState).setNode rid { n with entries := l2 }).setNode rid { { n with entries := l2 } with lhv := v1 }).setNode rid { { { n with entries := l2 } with lhv := v1 } with mbr := m2 }).setNode rid { { { { n with entries := l2 } with lhv := v1 } with mbr := m2 } with lhv := v2 }).setNode rid { { { { { n with entries := l2 } with lhv := v1 } with mbr := m2 } with lhv := v2 } with mbr := m3 }) := by
    simp only [modifyN, getN, hgE, except_bind_ok, hv4, except_pure_eq]
  have hat : adjustTreeLoop (((({ s with nextId := s.nextId + 1, root := some rid } : HState).setNode rid { n with entries := l2 }).setNode rid { { n with entries := l2 } with lhv := v1 }).setNode rid { { { n with entries := l2 } with lhv := v1 } with mbr := m2 }) 1000 rid rid none [rid] =
      Except.ok (rid, (((((({ s with nextId := s.nextId + 1, root := some rid } : HState).setNode rid { n with entries := l2 }).setNode rid { { n with entries := l2 } with lhv := v1 }).setNode rid { { { n with entries := l2 } with lhv := v1 } with mbr := m2 }).setNode rid { { { { n with entries := l2 } with lhv := v1 } with mbr := m2 } with lhv := v2 }).setNode rid { { { { { n with entries := l2 } with lhv := v1 } with mbr := m2 } with lhv := v2 } with mbr := m3 })) :=
    adjustTreeLoop_root _ _ _ 999 rid rid [rid] { { { n with entries := l2 } with lhv := v1 } with mbr := m2 } hgD hpD hm3 hm4
  refine ⟨{ (((((({ s with nextId := s.nextId + 1, root := some rid } : HState).setNode rid { n with entries := l2 }).setNode rid { { n with entries := l2 } with lhv := v1 }).setNode rid { { { n with entries := l2 } with lhv := v1 } with mbr := m2 }).setNode rid { { { { n with entries := l2 } with lhv := v1 } with mbr := m2 } with lhv := v2 }).setNode rid { { { { { n with entries := l2 } with lhv := v1 } with mbr := m2 } with lhv := v2 } with mbr := m3 }) with root := some rid }, ?_, ?_⟩
  · simp only [insert, hroot, except_bind_ok, except_pure_eq, hcl, getN, hn1, hile,
      hm1, hm2, hat]
    rw [if_pos hroom]
  · have hgF : ({ (((((({ s with nextId := s.nextId + 1, root := some rid } : HState).setNode rid { n with entries := l2 }).setNode rid { { n with entries := l2 } with lhv := v1 }).setNode rid { { { n with entries := l2 } with lhv := v1 } with mbr := m2 }).setNode rid { { { { n with entries := l2 } with lhv := v1 } with mbr := m2 } with lhv := v2 }).setNode rid { { { { { n with entries := l2 } with lhv := v1 } with mbr := m2 } with lhv := v2 } with mbr := m3 }) with root := some rid } : HState).getNode rid = some { { { { { n with entries := l2 } with lhv := v1 } with mbr := m2 } with lhv := v2 } with mbr := m3 } :=
      getNode_setNode_self _ rid _
    have hreach50 : reachAux ({ (((((({ s with nextId := s.nextId + 1, root := some rid } : HState).setNode rid { n with entries := l2 }).setNode rid { { n with entries := l2 } with lhv := v1 }).setNode rid { { { n with entries := l2 } with lhv := v1 } with mbr := m2 }).setNode rid { { { { n with entries := l2 } with lhv := v1 } with mbr := m2 } with lhv := v2 }).setNode rid { { { { { n with entries := l2 } with lhv := v1 } with mbr := m2 } with lhv := v2 } with mbr := m3 }) with root := some rid } : HState) 50 rid 0 =
        (rid, 0) :: (({ { { { { n with entries := l2 } with lhv := v1 } with mbr := m2 } with lhv := v2 } with mbr := m3 } : NodeR).entries.flatMap fun e => match e with
          | .innerE _ cid => reachAux ({ (((((({ s with nextId := s.nextId + 1, root := some rid } : HState).setNode rid { n with entries := l2 }).setNode rid { { n with entries := l2 } with lhv := v1 }).setNode rid { { { n with entries := l2 } with lhv := v1 } with mbr := m2 }).setNode rid { { { { n with entries := l2 } with lhv := v1 } with mbr := m2 } with lhv := v2 }).setNode rid { { { { { n with entries := l2 } with lhv := v1 } with mbr := m2 } with lhv := v2 } with mbr := m3 }) with root := some rid } : HState) 49 cid 1
          | .leafE _ => []) :=
      reachAux_succ _ 49 rid 0 { { { { { n with entries := l2 } with lhv := v1 } with mbr := m2 } with lhv := v2 } with mbr := m3 } hgF
    simp only [allEntries, reach]
    rw [hreach50]
    refine List.mem_flatMap.mpr ⟨(rid, 0), List.mem_cons_self _ _, ?_⟩
    rw [hgF]
    simp only [hleaf, if_true]
    exact List.mem_filterMap.mpr
      ⟨Entry.leafE ⟨s.nextId, r, curveIndex s.bits s.dim r.center, elem⟩, hl2mem, rfl⟩
set_option maxRecDepth 40000 in
/-- C7 counterexample: after the first insert established dimension 2
(tree d3s1), an insert of the 3-dimensional rectangle at (4, 4, 4)
succeeds and changes the tree, instead of failing with a dimension
mismatch and leaving it unchanged. -/
theorem C7_counterexample :
    insert d3s1 ⟨[4, 4, 4], [4, 4, 4]⟩ 7 = Except.ok c7s2 ∧
    ([4, 4, 4] : List Int).length ≠ d3s1.dim ∧
    ((⟨[4, 4, 4], [4, 4, 4]⟩ : Rect), 7) ∈ allEntries c7s2 ∧
    c7s2 ≠ d3s1 :=
  ⟨by decide, by decide, by decide, by decide⟩

/-- Witness for C7 amended at the concrete tree d3s1 and the
3-dimensional point rectangle at (5, 5, 5): the insert succeeds and the
entry is stored. -/
theorem C7_insert_no_dim_check_witness :
    ∃ s2, insert d3s1 ⟨[5, 5, 5], [5, 5, 5]⟩ 9 = Except.ok s2 ∧
      ((⟨[5, 5, 5], [5, 5, 5]⟩ : Rect), 9) ∈ allEntries s2 :=
  C7_insert_no_dim_check d3s1 ⟨[5, 5, 5], [5, 5, 5]⟩ 9 0
    ⟨true, none, none, none,
      [Entry.leafE ⟨1, ⟨[0, 0], [1, 1]⟩, 0, 0⟩], ⟨[0, 0], [1, 1]⟩, 0⟩
    (by decide) (by decide) (by decide) (by decide) (by decide) (by decide)
    (by decide) (by decide) (by decide)

end HilbertRTree

set_option maxRecDepth 10000 in
/-- C9 counterexample: the choose-leaf of RTreeHilbertKamelFaloutsos in
src/src/rtree/rtree.h does not enter the first child whose LHV is at
least h.  With h = 5 and children sorted by LHV, the first child with
LHV at least 5 is at index 0, but its mbr would need enlargement 341 to
take the new rectangle, while the child at index 1 needs none, so the
selection loop descends into index 1. -/
theorem C9_counterexample :
    KamelFaloutsos.chooseStep
      [⟨⟨[⟨0, 1⟩, ⟨0, 1⟩], [⟨10, 1⟩, ⟨10, 1⟩]⟩, 5⟩,
       ⟨⟨[⟨20, 1⟩, ⟨20, 1⟩], [⟨21, 1⟩, ⟨21, 1⟩]⟩, 6⟩]
      ⟨[⟨20, 1⟩, ⟨20, 1⟩], [⟨21, 1⟩, ⟨21, 1⟩]⟩ 5 = some 1 ∧
    ([(⟨⟨[⟨0, 1⟩, ⟨0, 1⟩], [⟨10, 1⟩, ⟨10, 1⟩]⟩, 5⟩ : KamelFaloutsos.NodeKF),
      ⟨⟨[⟨20, 1⟩, ⟨20, 1⟩], [⟨21, 1⟩, ⟨21, 1⟩]⟩, 6⟩].findIdx
        (fun nd => decide (5 ≤ nd.lhv))) = 0 ∧
    (5 : Nat) ≤ 6 := by
  refine ⟨by decide, by decide, by decide⟩
